import Mathlib

/-!
# ClickNMiner (Pixel Miner): world generation and mining economy

A shallow embedding of `src/script.js`.

Numbers.  JavaScript numbers that the program keeps integral (rows, columns,
hit points, levels, purchase counts, the 32-bit hash) are `Int`/`Nat`; the
other numbers (money, crit chance, weights, prices) are exact rationals `ℚ`,
i.e. the arithmetic of the source without the rounding of IEEE doubles.  The
one place where the source depends on double rounding of integers, the
products inside `rngSeeded`, is modelled exactly by `roundF64`.

State.  The mutable `state` object, the module-level `renderedRows`, the
children of the `#mine` element, the global `Math.random`, the mutable
`computeSell` binding and the pending `setTimeout` callbacks are the fields of
`State`; every function of the source that mutates them is a function
`State → State` here.  What is only drawn (text, colours, sounds, the floating
messages) is left out.

Sessions.  `Step` lists the events of the page (scroll, click on a block
element, clicks in the shop, timer expiry) and `Reachable` the states they lead
to from the initial state.  The viewport, the values of `Math.random` and the
order of the events are arbitrary.

Missing code.  The source file as given ends inside `renderSkins`: `spend`,
`renderAllShop` and the declaration of `computeSell` are not in it.  `spend` is
modelled from the specification, `renderAllShop` only redraws, and the first
value of `computeSell` is a parameter of the initial state.
-/

namespace ClickNMiner

/-! ## Integer arithmetic of JavaScript numbers -/

/-- Auxiliary loop of `ilog2`: halve `n` until it is below `2`. -/
def ilog2Loop : Nat → Nat → Nat
  | 0, _ => 0
  | fuel + 1, n => if n < 2 then 0 else ilog2Loop fuel (n / 2) + 1

/-- The binary exponent of a positive integer: `2 ^ ilog2 n ≤ n < 2 ^ (ilog2 n + 1)`. -/
def ilog2 (n : Nat) : Nat := ilog2Loop n n

/-- The double nearest to the integer `n` (round to nearest, ties to even), as
an integer.  Integers below `2^53` in magnitude are exact. -/
def roundF64 (n : Int) : Int :=
  let a := n.natAbs
  if a < 2 ^ 53 then n
  else
    let e := ilog2 a - 52
    let q := a / 2 ^ e
    let rem := a % 2 ^ e
    let half := 2 ^ (e - 1)
    let q1 := if half < rem ∨ (rem = half ∧ q % 2 = 1) then q + 1 else q
    Int.sign n * ((q1 * 2 ^ e : Nat) : Int)

/-- The product `a * b` of two integral JavaScript numbers. -/
def mulF64 (a b : Int) : Int := roundF64 (a * b)

/-- ECMAScript `ToUint32` of an integral number; a number too large for a
double is `Infinity`, which converts to `0`. -/
def toUint32 (n : Int) : Nat :=
  if 1024 ≤ ilog2 n.natAbs then 0 else (n % 4294967296).toNat

/-- ECMAScript `ToInt32`. -/
def toInt32 (n : Int) : Int :=
  let u := toUint32 n
  if 2147483648 ≤ u then (u : Int) - 4294967296 else (u : Int)

/-- The operator `a ^ b` of JavaScript (bitwise xor of the 32-bit values). -/
def xor32 (a b : Int) : Int := toInt32 ((Nat.xor (toUint32 a) (toUint32 b) : Nat) : Int)

/-- The operator `a >>> k` of JavaScript. -/
def ushr32 (a : Int) (k : Nat) : Int := ((toUint32 a >>> k : Nat) : Int)

/-- The helper `clamp = (n,min,max) => Math.max(min, Math.min(max, n))`. -/
def clamp {α : Type} [LinearOrder α] (n lo hi : α) : α := max lo (min hi n)

/-! ## Configuration and materials -/

/-- The constant `BLOCK.cols`. -/
def BLOCK_cols : Nat := 12

/-- The constant `VIEW_MARGIN_ROWS`. -/
def VIEW_MARGIN_ROWS : Int := 8

/-- The constant `BARRIER_EVERY`. -/
def BARRIER_EVERY : Int := 20

/-- An entry of the `materials` table (the colour, used for display only, is
left out). -/
structure Material where
  id : String
  name : String
  base : ℚ
  rarity : ℚ
  depthBias : ℚ
  deriving DecidableEq

/-- The `materials` table. -/
def materials : List Material :=
  [ { id := "stone",   name := "Stone",   base := 1,  rarity := 60 / 100,   depthBias := 0 },
    { id := "coal",    name := "Coal",    base := 3,  rarity := 18 / 100,   depthBias := 4 },
    { id := "iron",    name := "Iron",    base := 6,  rarity := 12 / 100,   depthBias := 12 },
    { id := "gold",    name := "Gold",    base := 12, rarity := 6 / 100,    depthBias := 25 },
    { id := "emerald", name := "Emerald", base := 24, rarity := 25 / 1000,  depthBias := 40 },
    { id := "diamond", name := "Diamond", base := 40, rarity := 10 / 1000,  depthBias := 65 },
    { id := "ruby",    name := "Ruby",    base := 55, rarity := 6 / 1000,   depthBias := 85 } ]

/-- The entry `materials[0]`. -/
def stone : Material :=
  { id := "stone", name := "Stone", base := 1, rarity := 60 / 100, depthBias := 0 }

/-! ## The seeded sampler -/

/-- The unsigned 32-bit value `x >>> 0` that `rngSeeded` divides by
`4294967295`. -/
def rngHash (r c : Int) : Nat :=
  let x0 := xor32 (xor32 (mulF64 r 73856093) (mulF64 c 19349663)) 0x9e3779b9
  let x1 := mulF64 (xor32 x0 (ushr32 x0 16)) 0x45d9f3b
  let x2 := mulF64 (xor32 x1 (ushr32 x1 16)) 0x45d9f3b
  let x3 := xor32 x2 (ushr32 x2 16)
  toUint32 x3

/-- The function `rngSeeded(r, c)`. -/
def rngSeeded (r c : Int) : ℚ := (rngHash r c : ℚ) / 4294967295

/-! ## Material choice, hit points, barriers -/

/-- The `weights` array of `chooseMaterial`, with `state.rareChanceBonus`
passed as `bonus`. -/
def weights (row : Int) (bonus : ℚ) : List ℚ :=
  materials.map fun m =>
    let bias := clamp (((row : ℚ) - m.depthBias) / 100) 0 1
    m.rarity * (1 + bias) * (1 + bonus)

/-- The `total` of `chooseMaterial`: `weights.reduce((a,b)=>a+b, 0)`. -/
def totalWeight (row : Int) (bonus : ℚ) : ℚ := (weights row bonus).foldl (· + ·) 0

/-- The `for` loop of `chooseMaterial`: subtract the weights from `roll` in
table order and return the first material at which the rest is `≤ 0`. -/
def pickLoop : List Material → List ℚ → ℚ → Option Material
  | m :: ms, w :: ws, roll => if roll - w ≤ 0 then some m else pickLoop ms ws (roll - w)
  | _, _, _ => none

/-- The value of `chooseMaterial(row)` when `Math.random()` returns `rnd` and
`state.rareChanceBonus` is `bonus`; `materials[0]` is the fall-through. -/
def chooseMaterialWith (row : Int) (bonus rnd : ℚ) : Material :=
  (pickLoop materials (weights row bonus) (rnd * totalWeight row bonus)).getD stone

/-- The index `materials.findIndex(m => m.id === mat.id)`, `-1` when absent. -/
def findIndex (mat : Material) : Int :=
  match materials.findIdx? (fun m => m.id == mat.id) with
  | some i => (i : Int)
  | none => -1

/-- The function `generateHP(mat, row)`. -/
def generateHP (mat : Material) (row : Int) : Int :=
  let base : ℚ := 8 + (row : ℚ) * (8 / 10)
  let matFactor : ℚ := max 1 ((findIndex mat + 1 : Int) : ℚ)
  ⌊base * (6 / 10 + matFactor * (2 / 10))⌋

/-- The function `isBarrierRow(row)`. -/
def isBarrierRow (row : Int) : Bool :=
  if row < 15 then false
  else
    let every := max BARRIER_EVERY (row / 4)
    row % every == 0

/-- The function `barrierRequirement(row)`: the pair `(reqDamage, reqLevel)`. -/
def barrierRequirement (row : Int) : Int × Int :=
  (20 + ⌊(row : ℚ) * (3 / 2)⌋, 1 + row / 60)

/-! ## State -/

/-- A value of the `state.blocks` map. -/
structure Block where
  type : String
  row : Int
  col : Int
  hp : Int
  mat : Option Material
  deriving DecidableEq

/-- A block element of the page: what `tryMineBlock` reads from it
(`dataset.type`, `dataset.row`, `style.left` in pixels, `dataset.reqDamage`,
`dataset.reqLevel`; the last two are only set and only read for barriers and
are `0` otherwise). -/
structure El where
  type : String
  row : Int
  left : Int
  reqDamage : Int
  reqLevel : Int
  deriving DecidableEq

/-- The object `state.upgradeCounts`. -/
structure UpgradeCounts where
  damage : Nat
  speed : Nat
  radar : Nat
  deriving DecidableEq

/-- A scheduled `setTimeout` callback of a boost. -/
inductive Timer where
  | sellEnd (original : ℚ → ℚ → ℚ)
  | adrenEnd
  | scannerEnd

/-- The mutable data of the program: the fields of `state` that the modelled
functions use, then `renderedRows`, the block elements under `#mine`,
`Math.random` (the stream of the values its next calls return), the binding
`computeSell`, the pending timers, and the `disabled` flag of the advanced
button. -/
structure State where
  money : ℚ
  blocks : Int → Int → Option Block
  pickaxeLevel : Int
  pickaxeDamage : ℚ
  pickaxeSpeed : ℚ
  critChance : ℚ
  critMult : ℚ
  rareChanceBonus : ℚ
  upgradeCounts : UpgradeCounts
  totalUpgradePurchases : Int
  advancedUnlocked : Bool
  renderedRows : List Int
  els : List El
  random : Nat → ℚ
  computeSell : ℚ → ℚ → ℚ
  timers : List Timer
  advancedShown : Bool
  advancedDisabled : Bool

/-- The call `state.blocks.set(keyRC(r,c), b)`; the string key `r:c` is the pair. -/
def blocksSet (m : Int → Int → Option Block) (r c : Int) (b : Block) :
    Int → Int → Option Block :=
  fun r1 c1 => if r1 = r ∧ c1 = c then some b else m r1 c1

/-- The call `state.blocks.delete(keyRC(r,c))`. -/
def blocksDelete (m : Int → Int → Option Block) (r c : Int) : Int → Int → Option Block :=
  fun r1 c1 => if r1 = r ∧ c1 = c then none else m r1 c1

/-- One call `Math.random()`: the value and the state after the call. -/
def callRandom (s : State) : ℚ × State :=
  (s.random 0, { s with random := fun n => s.random (n + 1) })

/-- The function `chooseMaterial(row)`. -/
def chooseMaterial (row : Int) (s : State) : Material × State :=
  let (rnd, s1) := callRandom s
  (chooseMaterialWith row s.rareChanceBonus rnd, s1)

/-! ## World generation -/

/-- The element that `renderRow` creates for a barrier cell. -/
def barrierEl (size r : Int) (c : Nat) : El :=
  { type := "barrier", row := r, left := 12 + (c : Int) * (size + 6),
    reqDamage := (barrierRequirement r).1, reqLevel := (barrierRequirement r).2 }

/-- The element that `renderRow` creates for a material cell. -/
def materialEl (size r : Int) (c : Nat) (mat : Material) : El :=
  { type := mat.id, row := r, left := 12 + (c : Int) * (size + 6), reqDamage := 0, reqLevel := 0 }

/-- The body of the loop of `renderRow(r)` for column `c`; `size` is
`BLOCK.size`. -/
def renderCell (size r : Int) (s : State) (c : Nat) : State :=
  if isBarrierRow r then
    let reqDamage := (barrierRequirement r).1
    { s with
      els := s.els ++ [barrierEl size r c]
      blocks := blocksSet s.blocks r c
        { type := "barrier", row := r, col := c, hp := reqDamage * 3, mat := none } }
  else
    let rnd := rngSeeded r c
    let oldRandom := s.random
    let s1 := { s with random := fun _ => rnd }
    let (mat, s2) := chooseMaterial r s1
    let s3 := { s2 with random := oldRandom }
    let hp := generateHP mat r
    { s3 with
      els := s3.els ++ [materialEl size r c mat]
      blocks := blocksSet s3.blocks r c
        { type := mat.id, row := r, col := c, hp := hp, mat := some mat } }

/-- The function `renderRow(r)`. -/
def renderRow (size r : Int) (s : State) : State :=
  (List.range BLOCK_cols).foldl (renderCell size r) s

/-- The body of the loop of `ensureRowsInView` for row `r`, on the state and
the list of the rows for which `renderRow` has been called so far. -/
def ensureRow (size : Int) (acc : State × List Int) (r : Int) : State × List Int :=
  if r ∈ acc.1.renderedRows then acc
  else
    let s1 := renderRow size r acc.1
    ({ s1 with renderedRows := s1.renderedRows ++ [r] }, acc.2 ++ [r])

/-- The first row of the loop of `ensureRowsInView`: `Math.max(0, rowTop)`. -/
def rowLo (size : Int) (top : ℚ) : Int := max 0 (⌊top / (size : ℚ)⌋ - VIEW_MARGIN_ROWS)

/-- The last row of the loop of `ensureRowsInView`: `rowBot`. -/
def rowBot (size : Int) (top h : ℚ) : Int := ⌊(top + h) / (size : ℚ)⌋ + VIEW_MARGIN_ROWS

/-- The rows `Math.max(0,rowTop), ..., rowBot` in the order of the loop. -/
def viewRows (size : Int) (top h : ℚ) : List Int :=
  (List.range (rowBot size top h + 1 - rowLo size top).toNat).map
    fun (i : Nat) => rowLo size top + (i : Int)

/-- The function `ensureRowsInView()` with `window.scrollY = top` and
`window.innerHeight = h`, together with the list of the rows for which it
called `renderRow`, in call order. -/
def ensureRowsInViewLog (size : Int) (top h : ℚ) (s : State) : State × List Int :=
  (viewRows size top h).foldl (ensureRow size) (s, [])

/-- The function `ensureRowsInView()`. -/
def ensureRowsInView (size : Int) (top h : ℚ) (s : State) : State :=
  (ensureRowsInViewLog size top h s).1

/-! ## Mining -/

/-- The function `computeDamage()`: the damage dealt and the state after the call of
`Math.random`. -/
def computeDamage (s : State) : Int × State :=
  let base := s.pickaxeDamage
  let (roll, s1) := callRandom s
  let crit : Bool := roll < s.critChance
  (⌊base * (if crit then s.critMult else 1)⌋, s1)

/-- The function `removeBlock(el, key)`. -/
def removeBlock (el : El) (r c : Int) (s : State) : State :=
  { s with blocks := blocksDelete s.blocks r c, els := s.els.erase el }

/-- The function `rewardBarrier(row)`. -/
def rewardBarrier (row : Int) (s : State) : State :=
  let bonus : ℚ := 200 + (row : ℚ) * 8
  { s with money := s.money + bonus, critChance := min (1 / 2) (s.critChance + 5 / 1000) }

/-- The column in the key of `tryMineBlock`:
`Math.round((parseInt(el.style.left) - 12) / (BLOCK.size + 6))`. -/
def elCol (size : Int) (el : El) : Int :=
  ⌊((el.left - 12 : Int) : ℚ) / ((size + 6 : Int) : ℚ) + 1 / 2⌋

/-- The function `tryMineBlock(el)`.  When a broken material block has no `mat` and its
type is not in the table, the source throws at `mat.base`: the handler ends
there, after the hit points were written. -/
def tryMineBlock (size : Int) (el : El) (s : State) : State :=
  let row := el.row
  let col := elCol size el
  match s.blocks row col with
  | none => s
  | some data =>
    if el.type = "barrier" then
      if s.pickaxeDamage < (el.reqDamage : ℚ) ∨ s.pickaxeLevel < el.reqLevel then s
      else
        let (dealt, s1) := computeDamage s
        let data1 := { data with hp := data.hp - dealt }
        let s2 := { s1 with blocks := blocksSet s1.blocks row col data1 }
        if data1.hp ≤ 0 then removeBlock el row col (rewardBarrier row s2) else s2
    else
      let (dealt, s1) := computeDamage s
      let data1 := { data with hp := data.hp - dealt }
      let s2 := { s1 with blocks := blocksSet s1.blocks row col data1 }
      if data1.hp ≤ 0 then
        match (data1.mat <|> materials.find? (fun m => m.id == el.type)) with
        | none => s2
        | some mat =>
          let value := mat.base * (1 + (row : ℚ) / 120)
          removeBlock el row col { s2 with money := s2.money + value }
      else s2

/-! ## Shop -/

/-- Modelled from the spec: `spend(amount)`, whose definition is not in the
source file as given: "fails (returns false, no mutation) if currency < amount;
otherwise deducts and returns true". -/
def spend (amount : ℚ) (s : State) : Bool × State :=
  if s.money < amount then (false, s) else (true, { s with money := s.money - amount })

/-- The function `upgradeCapPerType()`. -/
def upgradeCapPerType (s : State) : Int := 5 * s.pickaxeLevel

/-- The three upgrade cards of `renderUpgrades`. -/
inductive Track where
  | damage
  | speed
  | radar
  deriving DecidableEq

/-- The entry `state.upgradeCounts[it.id]`. -/
def Track.count (t : Track) (s : State) : Nat :=
  match t with
  | .damage => s.upgradeCounts.damage
  | .speed => s.upgradeCounts.speed
  | .radar => s.upgradeCounts.radar

/-- The getter `price` of an upgrade card. -/
def Track.price (t : Track) (s : State) : ℚ :=
  match t with
  | .damage => 50 * (165 / 100 : ℚ) ^ s.upgradeCounts.damage
  | .speed => 60 * (17 / 10 : ℚ) ^ s.upgradeCounts.speed
  | .radar => 120 * (16 / 10 : ℚ) ^ s.upgradeCounts.radar

/-- The function `renderUpgradeSegments()`: its one effect on the modelled state is to show
the advanced card. -/
def renderUpgradeSegments (s : State) : State :=
  let filled := clamp s.totalUpgradePurchases 0 15
  if 15 ≤ filled ∧ s.advancedUnlocked = false then { s with advancedShown := true } else s

/-- The function `incProgress()`. -/
def incProgress (s : State) : State :=
  renderUpgradeSegments
    { s with totalUpgradePurchases := clamp (s.totalUpgradePurchases + 1) 0 15 }

/-- The method `buy()` of an upgrade card (the final `renderAllShop()` only
redraws the shop). -/
def Track.buy (t : Track) (s : State) : State :=
  let (ok, s1) := spend (t.price s) s
  if ok = false then s
  else
    match t with
    | .damage =>
      let s2 := { s1 with upgradeCounts := { s1.upgradeCounts with damage := s1.upgradeCounts.damage + 1 } }
      incProgress { s2 with pickaxeDamage :=
        ((⌊(5 : ℚ) + (s2.upgradeCounts.damage : ℚ) * 2 + ((s2.pickaxeLevel : ℚ) - 1) * 5⌋ : Int) : ℚ) }
    | .speed =>
      let s2 := { s1 with upgradeCounts := { s1.upgradeCounts with speed := s1.upgradeCounts.speed + 1 } }
      incProgress { s2 with pickaxeSpeed :=
        1 + (s2.upgradeCounts.speed : ℚ) * (8 / 100) + ((s2.pickaxeLevel : ℚ) - 1) * (1 / 10) }
    | .radar =>
      let s2 := { s1 with upgradeCounts := { s1.upgradeCounts with radar := s1.upgradeCounts.radar + 1 } }
      incProgress { s2 with rareChanceBonus := (s2.upgradeCounts.radar : ℚ) * (3 / 100) }

/-- The flag `maxed = count >= cap` of an upgrade card, which disables its
button. -/
def Track.maxed (t : Track) (s : State) : Bool := decide (upgradeCapPerType s ≤ (t.count s : Int))

/-- A click on the button of an upgrade card: a disabled button does not
fire its listener, otherwise the listener calls `buy()`.  Every change of
`upgradeCounts` or `pickaxeLevel` is followed by `renderAllShop()`, whose
definition is not in the source file as given and which is taken to redraw the
cards with `renderUpgrades`, so the flag is the one of the current state. -/
def clickBuy (t : Track) (s : State) : State :=
  if t.maxed s then s else t.buy s

/-- The flag `allMaxed` of `renderUpgrades`. -/
def allMaxed (s : State) : Bool :=
  [s.upgradeCounts.damage, s.upgradeCounts.speed, s.upgradeCounts.radar].all
    fun v => decide (upgradeCapPerType s ≤ (v : Int))

/-- The value `levelUpPrice` of `renderUpgrades`. -/
def levelUpPrice (s : State) : ℚ := 2000 * (225 / 100 : ℚ) ^ (s.pickaxeLevel - 1).toNat

/-- The click listener of the level-up button. -/
def clickLevelUp (s : State) : State :=
  if allMaxed s = false then s
  else
    let (ok, s1) := spend (levelUpPrice s) s
    if ok = false then s
    else
      { s1 with
        pickaxeLevel := s1.pickaxeLevel + 1
        pickaxeDamage := s1.pickaxeDamage + 3
        pickaxeSpeed := s1.pickaxeSpeed + 5 / 100 }

/-- The click listener of `buyAdvancedBtn`. -/
def buyAdvanced (s : State) : State :=
  let (ok, s1) := spend 15000 s
  if ok = false then s
  else
    { s1 with
      advancedUnlocked := true
      critChance := min (8 / 10) (s1.critChance + 2 / 100)
      critMult := s1.critMult + 25 / 100
      pickaxeDamage := ((⌊s1.pickaxeDamage * (105 / 100)⌋ : Int) : ℚ)
      pickaxeSpeed := s1.pickaxeSpeed + 5 / 100
      advancedDisabled := true }

/-- A click on `buyAdvancedBtn`: nothing once the button is disabled. -/
def clickAdvanced (s : State) : State :=
  if s.advancedDisabled then s else buyAdvanced s

/-- The method `use()` of the boost `doubledrops`. -/
def doubledropsUse (s : State) : State :=
  let (ok, s1) := spend 2500 s
  if ok = false then s
  else
    let original := s1.computeSell
    { s1 with
      computeSell := fun base row => original base row * 2
      timers := s1.timers ++ [Timer.sellEnd original] }

/-- The method `use()` of the boost `adren`. -/
def adrenUse (s : State) : State :=
  let (ok, s1) := spend 1800 s
  if ok = false then s
  else { s1 with pickaxeSpeed := s1.pickaxeSpeed + 1 / 2, timers := s1.timers ++ [Timer.adrenEnd] }

/-- The method `use()` of the boost `scanner`. -/
def scannerUse (s : State) : State :=
  let (ok, s1) := spend 2200 s
  if ok = false then s
  else
    { s1 with
      rareChanceBonus := s1.rareChanceBonus + 6 / 100
      timers := s1.timers ++ [Timer.scannerEnd] }

/-- The callback of a timer. -/
def Timer.run (t : Timer) (s : State) : State :=
  match t with
  | .sellEnd original => { s with computeSell := original }
  | .adrenEnd => { s with pickaxeSpeed := s.pickaxeSpeed - 1 / 2 }
  | .scannerEnd => { s with rareChanceBonus := s.rareChanceBonus - 6 / 100 }

/-- The pending timer number `i` expires. -/
def fireTimer (i : Nat) (s : State) : State :=
  match s.timers.get? i with
  | none => s
  | some t => t.run { s with timers := s.timers.eraseIdx i }

/-! ## Sessions -/

/-- The state when the script has been loaded: the literal `state`, no row
rendered, no timer.  `Math.random` is any stream `rnd`; the first value `sell`
of `computeSell`, whose declaration is not in the source file as given, is a
parameter. -/
def initState (rnd : Nat → ℚ) (sell : ℚ → ℚ → ℚ) : State :=
  { money := 0
    blocks := fun _ _ => none
    pickaxeLevel := 1
    pickaxeDamage := 5
    pickaxeSpeed := 1
    critChance := 5 / 100
    critMult := 2
    rareChanceBonus := 0
    upgradeCounts := { damage := 0, speed := 0, radar := 0 }
    totalUpgradePurchases := 0
    advancedUnlocked := false
    renderedRows := []
    els := []
    random := rnd
    computeSell := sell
    timers := []
    advancedShown := false
    advancedDisabled := false }

/-- One event of a session: a scroll or resize (`ensureRowsInView` with the
new viewport), a click on a block element of the page, a click on a shop
button, or the expiry of a timer.  Clicks on the advanced button are allowed
whether or not the card is shown yet. -/
inductive Step (size : Int) : State → State → Prop where
  | scroll (s : State) (top h : ℚ) (ht : 0 ≤ top) (hh : 0 ≤ h) :
      Step size s (ensureRowsInView size top h s)
  | click (s : State) (el : El) (hel : el ∈ s.els) : Step size s (tryMineBlock size el s)
  | buy (s : State) (t : Track) : Step size s (clickBuy t s)
  | levelUp (s : State) : Step size s (clickLevelUp s)
  | advanced (s : State) : Step size s (clickAdvanced s)
  | doubledrops (s : State) : Step size s (doubledropsUse s)
  | adren (s : State) : Step size s (adrenUse s)
  | scanner (s : State) : Step size s (scannerUse s)
  | timer (s : State) (i : Nat) : Step size s (fireTimer i s)

/-- The states of the sessions with block size `size`. -/
inductive Reachable (size : Int) : State → Prop where
  | init (rnd : Nat → ℚ) (sell : ℚ → ℚ → ℚ) : Reachable size (initState rnd sell)
  | step {s t : State} (hs : Reachable size s) (ht : Step size s t) : Reachable size t

/-! ## Functions used to state the properties -/

/-- The block that `renderRow(r)` registers at column `c` when
`state.rareChanceBonus` is `bonus`. -/
def genBlock (r : Int) (c : Nat) (bonus : ℚ) : Block :=
  if isBarrierRow r then
    { type := "barrier", row := r, col := c, hp := (barrierRequirement r).1 * 3, mat := none }
  else
    let mat := chooseMaterialWith r bonus (rngSeeded r c)
    { type := mat.id, row := r, col := c, hp := generateHP mat r, mat := some mat }

/-- The element that `renderRow(r)` creates at column `c`. -/
def genEl (size r : Int) (c : Nat) (bonus : ℚ) : El :=
  if isBarrierRow r then barrierEl size r c
  else materialEl size r c (chooseMaterialWith r bonus (rngSeeded r c))


/-- The state without the world (blocks, elements, rendered rows): the player
fields, the money, `Math.random`, `computeSell` and the timers. -/
def State.core (s : State) : State :=
  { s with blocks := fun _ _ => none, els := [], renderedRows := [] }

/-- The player fields of the state. -/
structure Stats where
  pickaxeLevel : Int
  pickaxeDamage : ℚ
  pickaxeSpeed : ℚ
  critChance : ℚ
  critMult : ℚ
  rareChanceBonus : ℚ
  upgradeCounts : UpgradeCounts
  totalUpgradePurchases : Int
  advancedUnlocked : Bool
  advancedShown : Bool
  advancedDisabled : Bool
  deriving DecidableEq

/-- The player fields of a state. -/
def State.stats (s : State) : Stats :=
  { pickaxeLevel := s.pickaxeLevel
    pickaxeDamage := s.pickaxeDamage
    pickaxeSpeed := s.pickaxeSpeed
    critChance := s.critChance
    critMult := s.critMult
    rareChanceBonus := s.rareChanceBonus
    upgradeCounts := s.upgradeCounts
    totalUpgradePurchases := s.totalUpgradePurchases
    advancedUnlocked := s.advancedUnlocked
    advancedShown := s.advancedShown
    advancedDisabled := s.advancedDisabled }

/-- What holds of the player fields in every session: the level is at least
one, the damage at least five, a critical hit at least doubles, and no
purchase count exceeds the cap. -/
def Inv (s : State) : Prop :=
  1 ≤ s.pickaxeLevel ∧ 5 ≤ s.pickaxeDamage ∧ 2 ≤ s.critMult ∧
    ∀ t : Track, (t.count s : Int) ≤ upgradeCapPerType s

/-- What a later state keeps of the world of an earlier one: the rendered
rows, the blocks of those rows, and the barrier elements. -/
def Keeps (s t : State) : Prop :=
  (∀ r ∈ s.renderedRows, r ∈ t.renderedRows) ∧
  (∀ r ∈ s.renderedRows, ∀ c : Int, t.blocks r c = s.blocks r c) ∧
  (∀ el ∈ s.els, el.type = "barrier" → el ∈ t.els)

/-- The barrier of row `r`, column `c` is on the page. -/
def LiveBarrier (size : Int) (s : State) (r : Int) (c : Nat) : Prop :=
  r ∈ s.renderedRows ∧ (∃ data : Block, s.blocks r c = some data) ∧ barrierEl size r c ∈ s.els

/-- A click in the shop that changes the player fields. -/
inductive Action where
  | buy (t : Track)
  | levelUp
  | advanced
  deriving DecidableEq

/-- The listener of the click. -/
def Action.apply (a : Action) (s : State) : State :=
  match a with
  | .buy t => clickBuy t s
  | .levelUp => clickLevelUp s
  | .advanced => clickAdvanced s

/-- The price that the listener passes to `spend`. -/
def Action.cost (a : Action) (s : State) : ℚ :=
  match a with
  | .buy t => t.price s
  | .levelUp => levelUpPrice s
  | .advanced => 15000

/-- A state with the player fields `st`, the money `m` and an empty world. -/
def Stats.toState (st : Stats) (m : ℚ) : State :=
  { money := m
    blocks := fun _ _ => none
    pickaxeLevel := st.pickaxeLevel
    pickaxeDamage := st.pickaxeDamage
    pickaxeSpeed := st.pickaxeSpeed
    critChance := st.critChance
    critMult := st.critMult
    rareChanceBonus := st.rareChanceBonus
    upgradeCounts := st.upgradeCounts
    totalUpgradePurchases := st.totalUpgradePurchases
    advancedUnlocked := st.advancedUnlocked
    renderedRows := []
    els := []
    random := fun _ => 0
    computeSell := fun base _ => base
    timers := []
    advancedShown := st.advancedShown
    advancedDisabled := st.advancedDisabled }

/-- An amount of money above every price met below. -/
def bigMoney : ℚ := 10 ^ 15

/-- The player fields after a click in the shop by a player who can pay:
the listener of the source, run on `Stats.toState`. -/
def Stats.step (st : Stats) (a : Action) : Option Stats :=
  if a.cost (st.toState bigMoney) ≤ bigMoney then some (a.apply (st.toState bigMoney)).stats
  else none

/-- The player fields after a list of clicks in the shop. -/
def Stats.run : List Action → Stats → Option Stats
  | [], st => some st
  | a :: as, st =>
    match st.step a with
    | none => none
    | some st1 => Stats.run as st1

/-- The crit chance after `n` barrier rewards. -/
def critAfter (n : Nat) (c0 : ℚ) : ℚ :=
  (fun c : ℚ => min (1 / 2) (c + 5 / 1000))^[n] c0

/-- The gate of `tryMineBlock` for the barriers of row `r`. -/
def gateOpen (r : Int) (st : Stats) : Prop :=
  ((barrierRequirement r).1 : ℚ) ≤ st.pickaxeDamage ∧ (barrierRequirement r).2 ≤ st.pickaxeLevel

instance (r : Int) (st : Stats) : Decidable (gateOpen r st) := by
  unfold gateOpen
  infer_instance

/-- The first state of the session used in the examples: `Math.random`
returns 1/2 (no critical hit) and `computeSell` is the reward formula of
`tryMineBlock`. -/
def startState : State := initState (fun _ => 1 / 2) (fun base row => base * (1 + row / 120))

/-- Five purchases on each track, then a level-up. -/
def shopRound : List Action :=
  List.replicate 5 (Action.buy Track.damage) ++ List.replicate 5 (Action.buy Track.speed) ++
    List.replicate 5 (Action.buy Track.radar) ++ [Action.levelUp]

/-- The purchases up to pickaxe level `n + 1`, then five damage purchases. -/
def shopPlan (n : Nat) : List Action :=
  (List.replicate n shopRound).flatten ++ List.replicate 5 (Action.buy Track.damage)

/-- The player fields after `shopPlan 10`: level 11 and damage 165. -/
def statsLevel11 : Stats :=
  { pickaxeLevel := 11
    pickaxeDamage := 165
    pickaxeSpeed := 119 / 20
    critChance := 1 / 20
    critMult := 2
    rareChanceBonus := 3 / 2
    upgradeCounts := { damage := 55, speed := 50, radar := 50 }
    totalUpgradePurchases := 15
    advancedUnlocked := false
    advancedShown := true
    advancedDisabled := false }

/-- The 87 barrier cells of the rows 20, 40, 60, 80, 84, 88 and 92 and of the
first three columns of row 96. -/
def barrierCells87 : List (Int × Nat) :=
  ([20, 40, 60, 80, 84, 88, 92].map fun (r : Int) =>
      (List.range 12).map fun (c : Nat) => (r, c)).flatten ++
    [(96, 0), (96, 1), (96, 2)]

/-- The player fields after `shopPlan 9`: level 10 and damage 150. -/
def statsLevel10 : Stats :=
  { pickaxeLevel := 10
    pickaxeDamage := 150
    pickaxeSpeed := 109 / 20
    critChance := 1 / 20
    critMult := 2
    rareChanceBonus := 27 / 20
    upgradeCounts := { damage := 50, speed := 45, radar := 45 }
    totalUpgradePurchases := 15
    advancedUnlocked := false
    advancedShown := true
    advancedDisabled := false }

/-- The state `s` with the player fields `st`. -/
def State.withStats (s : State) (st : Stats) : State :=
  { s with
    pickaxeLevel := st.pickaxeLevel
    pickaxeDamage := st.pickaxeDamage
    pickaxeSpeed := st.pickaxeSpeed
    critChance := st.critChance
    critMult := st.critMult
    rareChanceBonus := st.rareChanceBonus
    upgradeCounts := st.upgradeCounts
    totalUpgradePurchases := st.totalUpgradePurchases
    advancedUnlocked := st.advancedUnlocked
    advancedShown := st.advancedShown
    advancedDisabled := st.advancedDisabled }

/-- A player of level 10 with damage 150 in front of the untouched barriers of
row 20. -/
def oneHitState : State :=
  { (renderRow 56 20 startState).withStats statsLevel10 with renderedRows := [20] }

/-- A state that differs from `startState` in the money, the player fields
but `rareChanceBonus`, the rendered rows and `Math.random`. -/
def richState : State :=
  { oneHitState with rareChanceBonus := 0, money := 5000, random := fun _ => 0 }

/-- A player of level 4 with damage 60 in front of the untouched barriers of
row 20. -/
def multiHitState : State :=
  { oneHitState with
    pickaxeLevel := 4
    pickaxeDamage := 60
    pickaxeSpeed := 5 / 2
    rareChanceBonus := 9 / 20
    upgradeCounts := { damage := 20, speed := 15, radar := 15 } }

/-- A player with 2500 of money in front of row 0, after one swing at the
stone block of column 1 (6 hit points, 1 left). -/
def boostState : State :=
  tryMineBlock 56 (materialEl 56 0 1 stone) (renderRow 56 0 { startState with money := 2500 })

/-- A player with five damage purchases at level 1, and money. -/
def cappedState : State :=
  { startState with
    money := 1000000
    pickaxeDamage := 15
    upgradeCounts := { damage := 5, speed := 0, radar := 0 }
    totalUpgradePurchases := 5 }

/-- The closed form of the damage purchase:
`5 + upgradeCounts.damage * 2 + (pickaxeLevel - 1) * 5`. -/
def damageForm (count : Nat) (level : Int) : ℚ :=
  5 + (count : ℚ) * 2 + ((level : ℚ) - 1) * 5

/-- Until the advanced upgrade is bought the pickaxe damage is at most the
closed form of the damage purchase. -/
def DamageBound (s : State) : Prop :=
  s.advancedUnlocked = false → s.pickaxeDamage ≤ damageForm s.upgradeCounts.damage s.pickaxeLevel

/-- The purchases up to pickaxe level 5, four damage purchases, then the
advanced upgrade. -/
def damagePlan : List Action :=
  (List.replicate 4 shopRound).flatten ++ List.replicate 4 (Action.buy Track.damage) ++
    [Action.advanced]

/-- The player fields after `damagePlan`: level 5, 24 damage purchases, and
damage `floor(73 * 1.05) = 76`. -/
def statsAdvanced : Stats :=
  { pickaxeLevel := 5
    pickaxeDamage := 76
    pickaxeSpeed := 3
    critChance := 7 / 100
    critMult := 9 / 4
    rareChanceBonus := 3 / 5
    upgradeCounts := { damage := 24, speed := 20, radar := 20 }
    totalUpgradePurchases := 15
    advancedUnlocked := true
    advancedShown := true
    advancedDisabled := true }
/-! ## Generation lemmas -/

theorem renderCell_eq (size r : Int) (s : State) (c : Nat) :
    renderCell size r s c =
      { s with
        els := s.els ++ [genEl size r c s.rareChanceBonus]
        blocks := blocksSet s.blocks r c (genBlock r c s.rareChanceBonus) } := by
  unfold renderCell genEl genBlock
  by_cases hb : isBarrierRow r = true
  · simp [hb]
  · simp [hb, chooseMaterial, callRandom]

theorem blocksSet_same (m : Int → Int → Option Block) (r c : Int) (b : Block) :
    blocksSet m r c b r c = some b := by
  simp [blocksSet]

theorem blocksSet_other (m : Int → Int → Option Block) (r c r1 c1 : Int) (b : Block)
    (h : ¬ (r1 = r ∧ c1 = c)) : blocksSet m r c b r1 c1 = m r1 c1 := by
  simp [blocksSet, h]

/-- The state after the loop of `renderRow` over the columns `cs`. -/
theorem renderCells_fold (size r : Int) (cs : List Nat) (s : State) :
    let t := cs.foldl (renderCell size r) s
    t.random = s.random ∧ t.rareChanceBonus = s.rareChanceBonus ∧
    t.renderedRows = s.renderedRows ∧
    t.els = s.els ++ cs.map (fun c => genEl size r c s.rareChanceBonus) ∧
    (∀ r1 c1 : Int, t.blocks r1 c1 =
      if r1 = r ∧ ∃ c ∈ cs, (c : Int) = c1 then
        some (genBlock r c1.toNat s.rareChanceBonus) else s.blocks r1 c1) := by
  induction cs generalizing s with
  | nil => simp
  | cons c cs ih =>
    have h := ih (renderCell size r s c)
    simp only [List.foldl_cons]
    obtain ⟨h1, h2, h3, h4, h5⟩ := h
    have e := renderCell_eq size r s c
    refine ⟨?_, ?_, ?_, ?_, ?_⟩
    · rw [h1, e]
    · rw [h2, e]
    · rw [h3, e]
    · rw [h4, e]; simp
    · intro r1 c1
      rw [h5, e]
      by_cases hr : r1 = r
      · by_cases hc : ∃ c0 ∈ cs, (c0 : Int) = c1
        · have : ∃ c0 ∈ c :: cs, (c0 : Int) = c1 := by
            obtain ⟨c0, hc0, hc1⟩ := hc
            exact ⟨c0, List.mem_cons_of_mem _ hc0, hc1⟩
          simp [hr, hc, this]
        · by_cases hcc : (c : Int) = c1
          · have : ∃ c0 ∈ c :: cs, (c0 : Int) = c1 := ⟨c, List.mem_cons_self _ _, hcc⟩
            simp only [hr, hc, this, and_false, and_true, if_false, if_true]
            subst hcc
            simp [blocksSet]
          · have : ¬ ∃ c0 ∈ c :: cs, (c0 : Int) = c1 := by
              rintro ⟨c0, hc0, hc1⟩
              rcases List.mem_cons.1 hc0 with h0 | h0
              · exact hcc (h0 ▸ hc1)
              · exact hc ⟨c0, h0, hc1⟩
            simp only [hr, hc, this, and_false, if_false]
            simp [blocksSet, Ne.symm hcc]
      · simp [hr, blocksSet]


theorem renderRow_frame (size r : Int) (s : State) :
    (renderRow size r s).random = s.random ∧
    (renderRow size r s).rareChanceBonus = s.rareChanceBonus ∧
    (renderRow size r s).renderedRows = s.renderedRows :=
  have h := renderCells_fold size r (List.range BLOCK_cols) s
  ⟨h.1, h.2.1, h.2.2.1⟩

theorem renderRow_blocks_same (size r : Int) (c : Nat) (s : State) (hc : c < 12) :
    (renderRow size r s).blocks r c = some (genBlock r c s.rareChanceBonus) := by
  have h := (renderCells_fold size r (List.range BLOCK_cols) s).2.2.2.2 r c
  have hex : ∃ c0 ∈ List.range BLOCK_cols, (c0 : Int) = (c : Int) :=
    ⟨c, List.mem_range.2 hc, rfl⟩
  rw [if_pos ⟨rfl, hex⟩] at h
  simpa [renderRow] using h

theorem renderRow_blocks_other (size r r1 c1 : Int) (s : State) (hr : r1 ≠ r) :
    (renderRow size r s).blocks r1 c1 = s.blocks r1 c1 := by
  have h := (renderCells_fold size r (List.range BLOCK_cols) s).2.2.2.2 r1 c1
  simpa [hr] using h

/-- The loop of `ensureRowsInView` over the rows `rs`. -/
theorem ensureRows_fold (size : Int) (rs : List Int) (s : State) (log : List Int) :
    ∃ new : List Int,
      (rs.foldl (ensureRow size) (s, log)).2 = log ++ new ∧ new.Nodup ∧
      (∀ r ∈ new, r ∈ rs ∧ r ∉ s.renderedRows) ∧
      (rs.foldl (ensureRow size) (s, log)).1.renderedRows = s.renderedRows ++ new ∧
      (∀ r1 c1 : Int, r1 ∉ new →
        (rs.foldl (ensureRow size) (s, log)).1.blocks r1 c1 = s.blocks r1 c1) ∧
      (∀ r ∈ rs, r ∈ (rs.foldl (ensureRow size) (s, log)).1.renderedRows) := by
  induction rs generalizing s log with
  | nil => exact ⟨[], by simp⟩
  | cons r rs ih =>
    simp only [List.foldl_cons]
    by_cases hr : r ∈ s.renderedRows
    · have e : ensureRow size (s, log) r = (s, log) := by simp [ensureRow, hr]
      rw [e]
      obtain ⟨new, h1, h2, h3, h4, h5, h6⟩ := ih s log
      refine ⟨new, h1, h2, ?_, h4, h5, ?_⟩
      · intro x hx
        exact ⟨List.mem_cons_of_mem _ (h3 x hx).1, (h3 x hx).2⟩
      · intro x hx
        rcases List.mem_cons.1 hx with h0 | h0
        · rw [h4, h0]; exact List.mem_append_left _ hr
        · exact h6 x h0
    · have e : ensureRow size (s, log) r =
          ({ renderRow size r s with renderedRows := (renderRow size r s).renderedRows ++ [r] },
            log ++ [r]) := by
        simp [ensureRow, hr]
      rw [e]
      obtain ⟨new, h1, h2, h3, h4, h5, h6⟩ :=
        ih { renderRow size r s with renderedRows := (renderRow size r s).renderedRows ++ [r] }
          (log ++ [r])
      have hrr : (renderRow size r s).renderedRows = s.renderedRows := (renderRow_frame size r s).2.2
      simp only [hrr] at h3 h4 h5 h6 h1 ⊢
      have hnot : r ∉ new := fun hx => (h3 r hx).2 (by simp)
      refine ⟨r :: new, ?_, ?_, ?_, ?_, ?_, ?_⟩
      · rw [h1]; simp
      · exact List.nodup_cons.2 ⟨hnot, h2⟩
      · intro x hx
        rcases List.mem_cons.1 hx with h0 | h0
        · subst h0; exact ⟨List.mem_cons_self _ _, hr⟩
        · refine ⟨List.mem_cons_of_mem _ (h3 x h0).1, ?_⟩
          intro hmem
          exact (h3 x h0).2 (List.mem_append_left _ hmem)
      · rw [h4]; simp
      · intro r1 c1 hr1
        have hne : r1 ≠ r := fun h => hr1 (h ▸ List.mem_cons_self _ _)
        have hn : r1 ∉ new := fun h => hr1 (List.mem_cons_of_mem _ h)
        rw [h5 r1 c1 hn]
        exact renderRow_blocks_other size r r1 c1 s hne
      · intro x hx
        rcases List.mem_cons.1 hx with h0 | h0
        · rw [h4, h0]; simp
        · exact h6 x h0

/-- A call of the loop on rows that are all rendered changes nothing. -/
theorem ensureRows_fold_done (size : Int) (rs : List Int) (s : State) (log : List Int)
    (h : ∀ r ∈ rs, r ∈ s.renderedRows) : rs.foldl (ensureRow size) (s, log) = (s, log) := by
  induction rs with
  | nil => rfl
  | cons r rs ih =>
    have hr : r ∈ s.renderedRows := h r (List.mem_cons_self _ _)
    have e : ensureRow size (s, log) r = (s, log) := by simp [ensureRow, hr]
    simp only [List.foldl_cons, e]
    exact ih fun x hx => h x (List.mem_cons_of_mem _ hx)

theorem mem_viewRows (size : Int) (top h : ℚ) (r : Int) :
    r ∈ viewRows size top h ↔ rowLo size top ≤ r ∧ r ≤ rowBot size top h := by
  unfold viewRows
  simp only [List.mem_map, List.mem_range]
  constructor
  · rintro ⟨i, hi, rfl⟩
    omega
  · rintro ⟨h1, h2⟩
    refine ⟨(r - rowLo size top).toNat, ?_, ?_⟩
    · omega
    · omega

/-! ## Mining lemmas -/

theorem elCol_barrierEl (size r : Int) (c : Nat) (hsize : 0 < size) :
    elCol size (barrierEl size r c) = c := by
  unfold elCol barrierEl
  have h6 : ((size + 6 : Int) : ℚ) ≠ 0 := by
    have : (0 : Int) < size + 6 := by omega
    exact_mod_cast this.ne'
  have e : (((12 + (c : Int) * (size + 6) - 12 : Int)) : ℚ) / ((size + 6 : Int) : ℚ) = (c : ℚ) := by
    field_simp
  simp only [e]
  rw [Int.floor_eq_iff]
  constructor <;> push_cast <;> linarith

theorem elCol_materialEl (size r : Int) (c : Nat) (mat : Material) (hsize : 0 < size) :
    elCol size (materialEl size r c mat) = c :=
  elCol_barrierEl size r c hsize

theorem barrierRequirement_pos (r : Int) (hr : 0 ≤ r) : 20 ≤ (barrierRequirement r).1 := by
  unfold barrierRequirement
  have : (0 : ℤ) ≤ ⌊(r : ℚ) * (3 / 2)⌋ := by
    apply Int.floor_nonneg.2
    have : (0 : ℚ) ≤ r := by exact_mod_cast hr
    positivity
  simp only
  omega

theorem isBarrierRow_ge (r : Int) (h : isBarrierRow r = true) : 15 ≤ r := by
  unfold isBarrierRow at h
  by_contra hlt
  have : r < 15 := by omega
  simp [this] at h

/-- The damage of a swing is at least the pickaxe damage rounded down when a
critical hit multiplies by at least one. -/
theorem computeDamage_ge (s : State) (hd : 0 ≤ s.pickaxeDamage) (hcm : 1 ≤ s.critMult) :
    ⌊s.pickaxeDamage⌋ ≤ (computeDamage s).1 := by
  unfold computeDamage callRandom
  simp only
  apply Int.floor_mono
  split
  · nlinarith
  · simp

theorem tryMineBlock_barrier_rejected (size : Int) (el : El) (s : State)
    (hty : el.type = "barrier")
    (hgate : s.pickaxeDamage < (el.reqDamage : ℚ) ∨ s.pickaxeLevel < el.reqLevel) :
    tryMineBlock size el s = s := by
  cases hb : s.blocks el.row (elCol size el) with
  | none => simp only [tryMineBlock, hb]
  | some data => simp only [tryMineBlock, hb, hty, hgate, if_true]

theorem tryMineBlock_barrier_hit (size : Int) (el : El) (s : State) (data : Block)
    (hty : el.type = "barrier") (hlive : s.blocks el.row (elCol size el) = some data)
    (hd : (el.reqDamage : ℚ) ≤ s.pickaxeDamage) (hl : el.reqLevel ≤ s.pickaxeLevel) :
    tryMineBlock size el s =
      if data.hp - (computeDamage s).1 ≤ 0 then
        removeBlock el el.row (elCol size el) (rewardBarrier el.row
          { (computeDamage s).2 with
            blocks := blocksSet (computeDamage s).2.blocks el.row (elCol size el)
              { data with hp := data.hp - (computeDamage s).1 } })
      else
        { (computeDamage s).2 with
          blocks := blocksSet (computeDamage s).2.blocks el.row (elCol size el)
            { data with hp := data.hp - (computeDamage s).1 } } := by
  unfold tryMineBlock
  have hg : ¬ (s.pickaxeDamage < (el.reqDamage : ℚ) ∨ s.pickaxeLevel < el.reqLevel) := by
    rintro (h | h)
    · exact absurd hd (not_le.2 h)
    · exact absurd hl (not_le.2 h)
  simp only [hlive, hty, if_true, hg, if_false]

/-! ## Invariants of the sessions -/

theorem renderCell_core (size r : Int) (s : State) (c : Nat) :
    (renderCell size r s c).core = s.core := by
  rw [renderCell_eq]; rfl

theorem renderRow_core (size r : Int) (s : State) : (renderRow size r s).core = s.core := by
  unfold renderRow
  generalize List.range BLOCK_cols = cs
  induction cs generalizing s with
  | nil => rfl
  | cons c cs ih => rw [List.foldl_cons, ih, renderCell_core]

theorem ensureRow_core (size : Int) (acc : State × List Int) (r : Int) :
    (ensureRow size acc r).1.core = acc.1.core := by
  unfold ensureRow
  split
  · rfl
  · exact renderRow_core size r acc.1

theorem ensureRowsInView_core (size : Int) (top h : ℚ) (s : State) :
    (ensureRowsInView size top h s).core = s.core := by
  unfold ensureRowsInView ensureRowsInViewLog
  generalize viewRows size top h = rs
  generalize ([] : List Int) = log
  induction rs generalizing s log with
  | nil => rfl
  | cons r rs ih =>
    rw [List.foldl_cons]
    have e : ensureRow size (s, log) r = ((ensureRow size (s, log) r).1, (ensureRow size (s, log) r).2) := rfl
    rw [e, ih, ensureRow_core]
theorem Inv_core (s : State) : Inv s.core ↔ Inv s := by
  unfold Inv upgradeCapPerType
  constructor
  · rintro ⟨h1, h2, h3, h4⟩
    exact ⟨h1, h2, h3, fun t => by have := h4 t; cases t <;> exact this⟩
  · rintro ⟨h1, h2, h3, h4⟩
    exact ⟨h1, h2, h3, fun t => by have := h4 t; cases t <;> exact this⟩

theorem Inv_of_core {s t : State} (h : t.core = s.core) (hs : Inv s) : Inv t :=
  (Inv_core t).1 (h ▸ (Inv_core s).2 hs)

/-- A swing changes, of the player fields, at most the crit chance. -/
theorem tryMineBlock_fields (size : Int) (el : El) (s : State) :
    (tryMineBlock size el s).pickaxeLevel = s.pickaxeLevel ∧
    (tryMineBlock size el s).pickaxeDamage = s.pickaxeDamage ∧
    (tryMineBlock size el s).critMult = s.critMult ∧
    (tryMineBlock size el s).upgradeCounts = s.upgradeCounts ∧
    (tryMineBlock size el s).renderedRows = s.renderedRows := by
  unfold tryMineBlock
  simp only
  split
  · simp
  · split_ifs <;> try simp [removeBlock, rewardBarrier, computeDamage, callRandom]
    split <;> simp [removeBlock, rewardBarrier, computeDamage, callRandom]

theorem Inv_tryMineBlock (size : Int) (el : El) (s : State) (hs : Inv s) :
    Inv (tryMineBlock size el s) := by
  obtain ⟨h1, h2, h3, h4, _⟩ := tryMineBlock_fields size el s
  obtain ⟨i1, i2, i3, i4⟩ := hs
  refine ⟨h1 ▸ i1, h2 ▸ i2, h3 ▸ i3, fun t => ?_⟩
  have := i4 t
  unfold upgradeCapPerType at *
  rw [h1]
  cases t <;> simpa [Track.count, h4] using this

theorem Inv_clickBuy (t : Track) (s : State) (hs : Inv s) : Inv (clickBuy t s) := by
  unfold clickBuy
  split_ifs with hm
  · exact hs
  · unfold Track.maxed at hm
    simp only [decide_eq_true_eq, not_le] at hm
    obtain ⟨i1, i2, i3, i4⟩ := hs
    unfold Track.buy spend
    split_ifs with hmoney
    · exact ⟨i1, i2, i3, i4⟩
    · have hd := i4 Track.damage
      have hsp := i4 Track.speed
      have hra := i4 Track.radar
      cases t <;>
        simp only [Track.count, upgradeCapPerType, incProgress, renderUpgradeSegments] at * <;>
        split_ifs <;>
        refine ⟨i1, ?_, i3, fun u => ?_⟩ <;>
        first
          | exact i2
          | (cases u <;> simp only [Track.count, upgradeCapPerType] <;> push_cast <;> omega)
          | skip
      all_goals
        simp only
        have h5 : (5 : ℚ) ≤ (5 : ℚ) + ((s.upgradeCounts.damage + 1 : Nat) : ℚ) * 2 +
            ((s.pickaxeLevel : ℚ) - 1) * 5 := by
          have : (1 : ℚ) ≤ s.pickaxeLevel := by exact_mod_cast i1
          have : (0 : ℚ) ≤ ((s.upgradeCounts.damage + 1 : Nat) : ℚ) := Nat.cast_nonneg _
          nlinarith
        have : (5 : Int) ≤ ⌊(5 : ℚ) + ((s.upgradeCounts.damage + 1 : Nat) : ℚ) * 2 +
            ((s.pickaxeLevel : ℚ) - 1) * 5⌋ := Int.le_floor.2 (by push_cast at h5 ⊢; linarith)
        exact_mod_cast this
theorem Inv_clickLevelUp (s : State) (hs : Inv s) : Inv (clickLevelUp s) := by
  obtain ⟨i1, i2, i3, i4⟩ := hs
  unfold clickLevelUp spend
  split_ifs
  · exact ⟨i1, i2, i3, i4⟩
  · exact ⟨i1, i2, i3, i4⟩
  · simp only [Bool.true_eq_false, if_false]
    refine ⟨?_, ?_, i3, fun u => ?_⟩
    · simp only; omega
    · simp only; linarith
    · have := i4 u
      cases u <;> simp only [Track.count, upgradeCapPerType] at * <;> omega

theorem Inv_clickAdvanced (s : State) (hs : Inv s) : Inv (clickAdvanced s) := by
  obtain ⟨i1, i2, i3, i4⟩ := hs
  unfold clickAdvanced buyAdvanced spend
  split_ifs
  · exact ⟨i1, i2, i3, i4⟩
  · exact ⟨i1, i2, i3, i4⟩
  · simp only [Bool.true_eq_false, if_false]
    refine ⟨i1, ?_, ?_, fun u => ?_⟩
    · simp only
      have : (5 : Int) ≤ ⌊s.pickaxeDamage * (105 / 100)⌋ :=
        Int.le_floor.2 (by push_cast; linarith)
      exact_mod_cast this
    · simp only; linarith
    · have := i4 u
      cases u <;> simpa only [Track.count, upgradeCapPerType] using this

theorem Inv_boosts (s : State) (hs : Inv s) :
    Inv (doubledropsUse s) ∧ Inv (adrenUse s) ∧ Inv (scannerUse s) := by
  obtain ⟨i1, i2, i3, i4⟩ := hs
  refine ⟨?_, ?_, ?_⟩
  · unfold doubledropsUse spend
    split_ifs
    · exact ⟨i1, i2, i3, i4⟩
    · simp only [Bool.true_eq_false, if_false]
      exact ⟨i1, i2, i3, fun u => by have := i4 u; cases u <;> exact this⟩
  · unfold adrenUse spend
    split_ifs
    · exact ⟨i1, i2, i3, i4⟩
    · simp only [Bool.true_eq_false, if_false]
      exact ⟨i1, i2, i3, fun u => by have := i4 u; cases u <;> exact this⟩
  · unfold scannerUse spend
    split_ifs
    · exact ⟨i1, i2, i3, i4⟩
    · simp only [Bool.true_eq_false, if_false]
      exact ⟨i1, i2, i3, fun u => by have := i4 u; cases u <;> exact this⟩

theorem Inv_fireTimer (i : Nat) (s : State) (hs : Inv s) : Inv (fireTimer i s) := by
  obtain ⟨i1, i2, i3, i4⟩ := hs
  unfold fireTimer
  split
  · exact ⟨i1, i2, i3, i4⟩
  · rename_i t _
    cases t <;>
      exact ⟨i1, i2, i3, fun u => by have := i4 u; cases u <;> exact this⟩

theorem Inv_initState (rnd : Nat → ℚ) (sell : ℚ → ℚ → ℚ) : Inv (initState rnd sell) := by
  refine ⟨by simp [initState], by simp [initState], by simp [initState], fun u => ?_⟩
  cases u <;> simp [Track.count, upgradeCapPerType, initState]

theorem Inv_step {size : Int} {s t : State} (h : Step size s t) (hs : Inv s) : Inv t := by
  cases h with
  | scroll top h _ _ => exact Inv_of_core (ensureRowsInView_core size top h s) hs
  | click el _ => exact Inv_tryMineBlock size el s hs
  | buy u => exact Inv_clickBuy u s hs
  | levelUp => exact Inv_clickLevelUp s hs
  | advanced => exact Inv_clickAdvanced s hs
  | doubledrops => exact (Inv_boosts s hs).1
  | adren => exact (Inv_boosts s hs).2.1
  | scanner => exact (Inv_boosts s hs).2.2
  | timer i => exact Inv_fireTimer i s hs

/-- The invariant holds in every state of a session. -/
theorem Reachable_inv {size : Int} {s : State} (h : Reachable size s) : Inv s := by
  induction h with
  | init rnd sell => exact Inv_initState rnd sell
  | step _ ht ih => exact Inv_step ht ih

theorem tryMineBlock_material_break (size : Int) (el : El) (s : State) (data : Block)
    (mat : Material) (hty : el.type ≠ "barrier")
    (hlive : s.blocks el.row (elCol size el) = some data) (hmat : data.mat = some mat)
    (hbreak : data.hp - (computeDamage s).1 ≤ 0) :
    tryMineBlock size el s =
      removeBlock el el.row (elCol size el)
        { (computeDamage s).2 with
          blocks := blocksSet (computeDamage s).2.blocks el.row (elCol size el)
            { data with hp := data.hp - (computeDamage s).1 }
          money := (computeDamage s).2.money + mat.base * (1 + (el.row : ℚ) / 120) } := by
  simp only [tryMineBlock, hlive, hty, if_false, hbreak, if_true, hmat, Option.some_orElse,
    HOrElse.hOrElse, OrElse.orElse, Option.orElse]

theorem tryMineBlock_material_survive (size : Int) (el : El) (s : State) (data : Block)
    (hty : el.type ≠ "barrier")
    (hlive : s.blocks el.row (elCol size el) = some data)
    (hbreak : ¬ data.hp - (computeDamage s).1 ≤ 0) :
    tryMineBlock size el s =
        { (computeDamage s).2 with
          blocks := blocksSet (computeDamage s).2.blocks el.row (elCol size el)
            { data with hp := data.hp - (computeDamage s).1 } } := by
  simp only [tryMineBlock, hlive, hty, if_false, hbreak]

theorem computeDamage_frame (s : State) :
    (computeDamage s).2 = { s with random := fun n => s.random (n + 1) } := rfl

/-! ## Barrier rows, sampler and weights -/

/-- From row 84 on, the barrier rows are the multiples of four. -/
theorem isBarrierRow_deep (r : Int) (h : 84 ≤ r) : isBarrierRow r = true ↔ r % 4 = 0 := by
  unfold isBarrierRow BARRIER_EVERY
  have h15 : ¬ r < 15 := by omega
  have hq : 20 ≤ r / 4 := by omega
  simp only [h15, if_false, max_eq_right hq, beq_iff_eq]
  have hm : 0 ≤ r % 4 ∧ r % 4 < 4 := by omega
  have key : ∀ q t : Int, (q * 4 + t) % q = t % q := by
    intro q t
    rw [Int.add_emod, Int.mul_emod_right, zero_add, Int.emod_emod]
  have h1 : r % (r / 4) = (r % 4) % (r / 4) := by
    have e : (r / 4 * 4 + r % 4) % (r / 4) = (r % 4) % (r / 4) := key (r / 4) (r % 4)
    have hr : r / 4 * 4 + r % 4 = r := by omega
    rw [hr] at e
    exact e
  rw [h1, Int.emod_eq_of_lt hm.1 (by omega)]

theorem toUint32_lt (n : Int) : toUint32 n < 4294967296 := by
  unfold toUint32
  split
  · norm_num
  · have := Int.emod_lt_of_pos n (show (0 : Int) < 4294967296 by norm_num)
    have := Int.emod_nonneg n (show (4294967296 : Int) ≠ 0 by norm_num)
    omega

theorem rngHash_le (r c : Int) : rngHash r c ≤ 4294967295 :=
  Nat.lt_succ_iff.1 (toUint32_lt _)

theorem weights_scale (row : Int) (b : ℚ) :
    weights row b = (weights row 0).map fun w => w * (1 + b) := by
  simp [weights, materials]

theorem foldl_add_scale (ws : List ℚ) (k a : ℚ) :
    (ws.map fun w => w * k).foldl (· + ·) (a * k) = ws.foldl (· + ·) a * k := by
  induction ws generalizing a with
  | nil => rfl
  | cons w ws ih =>
    simp only [List.map_cons, List.foldl_cons]
    rw [← add_mul, ih]

theorem totalWeight_scale (row : Int) (b : ℚ) :
    totalWeight row b = totalWeight row 0 * (1 + b) := by
  unfold totalWeight
  rw [weights_scale row b]
  have := foldl_add_scale (weights row 0) (1 + b) 0
  rwa [zero_mul] at this

/-- Scaling the weights and the roll by the same positive factor does not
change the material picked. -/
theorem pickLoop_scale (ms : List Material) (ws : List ℚ) (roll k : ℚ) (hk : 0 < k) :
    pickLoop ms (ws.map fun w => w * k) (roll * k) = pickLoop ms ws roll := by
  induction ms generalizing ws roll with
  | nil => cases ws <;> rfl
  | cons m ms ih =>
    cases ws with
    | nil => rfl
    | cons w ws =>
      simp only [List.map_cons, pickLoop]
      have e : roll * k - w * k = (roll - w) * k := by ring
      rw [e, ih]
      have hiff : (roll - w) * k ≤ 0 ↔ roll - w ≤ 0 := by
        constructor
        · intro h
          by_contra hpos
          have : 0 < (roll - w) * k := mul_pos (not_le.1 hpos) hk
          linarith
        · intro h
          exact mul_nonpos_of_nonpos_of_nonneg h hk.le
      by_cases h : roll - w ≤ 0
      · simp [h, hiff.2 h]
      · simp [h, mt hiff.1 h]

/-! ## Earning money -/

theorem Keeps.refl (s : State) : Keeps s s :=
  ⟨fun _ h => h, fun _ _ _ => rfl, fun _ h _ => h⟩

theorem Keeps.trans {s t u : State} (h1 : Keeps s t) (h2 : Keeps t u) : Keeps s u :=
  ⟨fun r hr => h2.1 r (h1.1 r hr),
    fun r hr c => (h2.2.1 r (h1.1 r hr) c).trans (h1.2.1 r hr c),
    fun el hel hty => h2.2.2 el (h1.2.2 el hel hty) hty⟩

theorem LiveBarrier.keeps {size : Int} {s t : State} {r : Int} {c : Nat}
    (h : LiveBarrier size s r c) (hk : Keeps s t) : LiveBarrier size t r c := by
  obtain ⟨h1, ⟨data, h2⟩, h3⟩ := h
  exact ⟨hk.1 r h1, ⟨data, (hk.2.1 r h1 c).trans h2⟩, hk.2.2 _ h3 rfl⟩

theorem renderRow_els (size r : Int) (s : State) :
    (renderRow size r s).els =
      s.els ++ (List.range BLOCK_cols).map (fun c => genEl size r c s.rareChanceBonus) :=
  (renderCells_fold size r (List.range BLOCK_cols) s).2.2.2.1

/-- The loop of `ensureRowsInView` only adds elements. -/
theorem ensureRows_fold_els (size : Int) (rs : List Int) (s : State) (log : List Int) :
    ∀ el ∈ s.els, el ∈ (rs.foldl (ensureRow size) (s, log)).1.els := by
  induction rs generalizing s log with
  | nil => exact fun _ h => h
  | cons r rs ih =>
    intro el hel
    simp only [List.foldl_cons]
    by_cases hr : r ∈ s.renderedRows
    · have e : ensureRow size (s, log) r = (s, log) := by simp [ensureRow, hr]
      rw [e]; exact ih s log el hel
    · have e : ensureRow size (s, log) r =
          ({ renderRow size r s with renderedRows := (renderRow size r s).renderedRows ++ [r] },
            log ++ [r]) := by
        simp [ensureRow, hr]
      rw [e]
      apply ih
      show el ∈ (renderRow size r s).els
      rw [renderRow_els]
      exact List.mem_append_left _ hel

/-- The loop of `ensureRowsInView` keeps `rareChanceBonus`. -/
theorem ensureRows_fold_core (size : Int) (rs : List Int) (s : State) (log : List Int) :
    (rs.foldl (ensureRow size) (s, log)).1.core = s.core := by
  induction rs generalizing s log with
  | nil => rfl
  | cons r rs ih =>
    rw [List.foldl_cons]
    have e : ensureRow size (s, log) r =
        ((ensureRow size (s, log) r).1, (ensureRow size (s, log) r).2) := rfl
    rw [e, ih, ensureRow_core]

/-- A row of the window that was not rendered gets the blocks and elements of
`renderRow`. -/
theorem ensureRows_fold_fresh (size : Int) (rs : List Int) (s : State) (log : List Int)
    (r : Int) (hr : r ∈ rs) (hfresh : r ∉ s.renderedRows) (c : Nat) (hc : c < 12) :
    (rs.foldl (ensureRow size) (s, log)).1.blocks r c = some (genBlock r c s.rareChanceBonus) ∧
    genEl size r c s.rareChanceBonus ∈ (rs.foldl (ensureRow size) (s, log)).1.els := by
  induction rs generalizing s log with
  | nil => simp at hr
  | cons r1 rs ih =>
    simp only [List.foldl_cons]
    by_cases hr1 : r1 ∈ s.renderedRows
    · have e : ensureRow size (s, log) r1 = (s, log) := by simp [ensureRow, hr1]
      rw [e]
      have hne : r ≠ r1 := fun h => hfresh (h ▸ hr1)
      exact ih s log ((List.mem_cons.1 hr).resolve_left hne) hfresh
    · have e : ensureRow size (s, log) r1 =
          ({ renderRow size r1 s with renderedRows := (renderRow size r1 s).renderedRows ++ [r1] },
            log ++ [r1]) := by
        simp [ensureRow, hr1]
      rw [e]
      have hbonus : (renderRow size r1 s).rareChanceBonus = s.rareChanceBonus :=
        (renderRow_frame size r1 s).2.1
      have hrr : (renderRow size r1 s).renderedRows = s.renderedRows :=
        (renderRow_frame size r1 s).2.2
      by_cases hne : r = r1
      · subst hne
        obtain ⟨new, _, _, h3, _, h5, _⟩ := ensureRows_fold size rs
          { renderRow size r s with renderedRows := (renderRow size r s).renderedRows ++ [r] }
          (log ++ [r])
        have hnot : r ∉ new := fun hx => (h3 r hx).2 (by simp)
        constructor
        · rw [h5 r c hnot]
          exact renderRow_blocks_same size r c s hc
        · apply ensureRows_fold_els
          show genEl size r c s.rareChanceBonus ∈ (renderRow size r s).els
          rw [renderRow_els]
          apply List.mem_append_right
          exact List.mem_map.2 ⟨c, List.mem_range.2 hc, rfl⟩
      · have h := ih
          { renderRow size r1 s with renderedRows := (renderRow size r1 s).renderedRows ++ [r1] }
          (log ++ [r1]) ((List.mem_cons.1 hr).resolve_left hne)
          (by
            show r ∉ (renderRow size r1 s).renderedRows ++ [r1]
            rw [hrr]
            simp [hfresh, hne])
        simpa only [hbonus] using h
theorem ensureRowsInView_keeps (size : Int) (top h : ℚ) (s : State) :
    Keeps s (ensureRowsInView size top h s) := by
  obtain ⟨new, _, _, h3, h4, h5, _⟩ := ensureRows_fold size (viewRows size top h) s []
  refine ⟨fun r hr => ?_, fun r hr c => ?_, fun el hel _ => ?_⟩
  · show r ∈ (ensureRowsInViewLog size top h s).1.renderedRows
    unfold ensureRowsInViewLog
    rw [h4]
    exact List.mem_append_left _ hr
  · exact h5 r c fun hx => (h3 r hx).2 hr
  · exact ensureRows_fold_els size _ s [] el hel

theorem blocksDelete_set_other (m : Int → Int → Option Block) (r c r1 c1 : Int) (b : Block)
    (h : ¬ (r1 = r ∧ c1 = c)) : blocksDelete (blocksSet m r c b) r c r1 c1 = m r1 c1 := by
  simp [blocksDelete, blocksSet, h]

/-- Swinging at a material block until it breaks: the money grows by the
reward of the block, the player fields and the other blocks stay. -/
theorem mine_material (size : Int) (hsize : 0 < size) (n : Nat) :
    ∀ (s : State) (r : Int) (c : Nat) (data : Block) (mat : Material),
      Reachable size s → s.blocks r c = some data → data.hp.toNat ≤ n →
      data.mat = some mat → mat.id ≠ "barrier" → materialEl size r c mat ∈ s.els →
      ∃ t : State, Reachable size t ∧ t.money = s.money + mat.base * (1 + (r : ℚ) / 120) ∧
        t.stats = s.stats ∧ t.renderedRows = s.renderedRows ∧
        (∀ r1 c1 : Int, ¬ (r1 = r ∧ c1 = c) → t.blocks r1 c1 = s.blocks r1 c1) ∧
        (∀ el ∈ s.els, el ≠ materialEl size r c mat → el ∈ t.els) := by
  induction n with
  | zero =>
    intro s r c data mat hs hlive hn hmat hty hel
    have hinv := Reachable_inv hs
    have hcol := elCol_materialEl size r c mat hsize
    have hlive1 : s.blocks (materialEl size r c mat).row (elCol size (materialEl size r c mat))
        = some data := by rw [hcol]; exact hlive
    have hdealt : 5 ≤ (computeDamage s).1 :=
      le_trans (Int.le_floor.2 (by push_cast; exact hinv.2.1))
        (computeDamage_ge s (by linarith [hinv.2.1]) (by linarith [hinv.2.2.1]))
    have hbreak : data.hp - (computeDamage s).1 ≤ 0 := by omega
    refine ⟨tryMineBlock size (materialEl size r c mat) s, Reachable.step hs (Step.click s _ hel),
      ?_, ?_, ?_, ?_, ?_⟩ <;>
      rw [tryMineBlock_material_break size _ s data mat hty hlive1 hmat hbreak, hcol]
    · rfl
    · rfl
    · rfl
    · intro r1 c1 hne
      exact blocksDelete_set_other _ _ _ _ _ _ hne
    · intro el hel1 hne
      exact (List.mem_erase_of_ne hne).2 hel1
  | succ n ih =>
    intro s r c data mat hs hlive hn hmat hty hel
    have hinv := Reachable_inv hs
    have hcol := elCol_materialEl size r c mat hsize
    have hlive1 : s.blocks (materialEl size r c mat).row (elCol size (materialEl size r c mat))
        = some data := by rw [hcol]; exact hlive
    have hdealt : 5 ≤ (computeDamage s).1 :=
      le_trans (Int.le_floor.2 (by push_cast; exact hinv.2.1))
        (computeDamage_ge s (by linarith [hinv.2.1]) (by linarith [hinv.2.2.1]))
    by_cases hbreak : data.hp - (computeDamage s).1 ≤ 0
    · refine ⟨tryMineBlock size (materialEl size r c mat) s,
        Reachable.step hs (Step.click s _ hel), ?_, ?_, ?_, ?_, ?_⟩ <;>
        rw [tryMineBlock_material_break size _ s data mat hty hlive1 hmat hbreak, hcol]
      · rfl
      · rfl
      · rfl
      · intro r1 c1 hne
        exact blocksDelete_set_other _ _ _ _ _ _ hne
      · intro el hel1 hne
        exact (List.mem_erase_of_ne hne).2 hel1
    · have hstep := tryMineBlock_material_survive size _ s data hty hlive1 hbreak
      rw [hcol] at hstep
      have hreach : Reachable size (tryMineBlock size (materialEl size r c mat) s) :=
        Reachable.step hs (Step.click s _ hel)
      rw [hstep] at hreach
      obtain ⟨t, ht, hm, hst, hrr, hbl, hels⟩ := ih _ r c
        { data with hp := data.hp - (computeDamage s).1 } mat hreach
        (by simp [blocksSet, materialEl]) (by simp only; omega) hmat hty hel
      refine ⟨t, ht, hm, hst, hrr, ?_, hels⟩
      intro r1 c1 hne
      rw [hbl r1 c1 hne]
      exact blocksSet_other _ _ _ _ _ _ hne
theorem exists_fresh_row (l : List Int) : ∃ r : Int, 84 ≤ r ∧ r % 4 = 1 ∧ r ∉ l := by
  have hb : ∃ B : Int, 0 ≤ B ∧ ∀ x ∈ l, x ≤ B := by
    induction l with
    | nil => exact ⟨0, le_refl _, by simp⟩
    | cons a l ih =>
      obtain ⟨B, hB, hl⟩ := ih
      refine ⟨max a B, le_trans hB (le_max_right _ _), ?_⟩
      intro x hx
      rcases List.mem_cons.1 hx with h | h
      · rw [h]; exact le_max_left _ _
      · exact le_trans (hl x h) (le_max_right _ _)
  obtain ⟨B, hB, hl⟩ := hb
  refine ⟨4 * (B + 21) + 1, by omega, by omega, ?_⟩
  intro hmem
  have := hl _ hmem
  omega

theorem pickLoop_mem (ms : List Material) (ws : List ℚ) (roll : ℚ) (m : Material)
    (h : pickLoop ms ws roll = some m) : m ∈ ms := by
  induction ms generalizing ws roll with
  | nil => cases ws <;> simp [pickLoop] at h
  | cons a ms ih =>
    cases ws with
    | nil => simp [pickLoop] at h
    | cons w ws =>
      simp only [pickLoop] at h
      split_ifs at h
      · simp only [Option.some.injEq] at h
        rw [← h]; exact List.mem_cons_self _ _
      · exact List.mem_cons_of_mem _ (ih ws _ h)

theorem chooseMaterialWith_mem (row : Int) (b rnd : ℚ) :
    chooseMaterialWith row b rnd ∈ materials := by
  unfold chooseMaterialWith
  cases h : pickLoop materials (weights row b) (rnd * totalWeight row b) with
  | none => simp [materials, stone]
  | some m => exact pickLoop_mem _ _ _ m h

theorem materials_facts (m : Material) (h : m ∈ materials) : m.id ≠ "barrier" ∧ 1 ≤ m.base := by
  simp only [materials, List.mem_cons, List.mem_singleton, List.not_mem_nil, or_false] at h
  rcases h with h | h | h | h | h | h | h <;> subst h <;> exact ⟨by decide, by norm_num⟩

theorem stats_of_core {s t : State} (h : t.core = s.core) :
    t.stats = s.stats ∧ t.money = s.money := by
  have h1 : t.core.stats = s.core.stats := by rw [h]
  have h2 : t.core.money = s.core.money := by rw [h]
  exact ⟨h1, h2⟩

theorem mem_viewRows_self (size r : Int) (hsize : 0 < size) (hr : 0 ≤ r) :
    r ∈ viewRows size ((r : ℚ) * (size : ℚ)) 0 := by
  rw [mem_viewRows]
  have hs : (size : ℚ) ≠ 0 := by exact_mod_cast hsize.ne'
  have e1 : ⌊(r : ℚ) * (size : ℚ) / (size : ℚ)⌋ = r := by
    rw [mul_div_assoc, div_self hs, mul_one, Int.floor_intCast]
  unfold rowLo rowBot VIEW_MARGIN_ROWS
  rw [add_zero, e1]
  constructor
  · exact max_le hr (by omega)
  · omega

/-- From every state of a session a state with one more unit of money and the
same player fields can be reached, by rendering a row further down and
breaking one of its blocks. -/
theorem gain_one (size : Int) (hsize : 0 < size) (s : State) (hs : Reachable size s) :
    ∃ t : State, Reachable size t ∧ s.money + 1 ≤ t.money ∧ t.stats = s.stats ∧ Keeps s t := by
  obtain ⟨r, hr84, hr4, hfresh⟩ := exists_fresh_row s.renderedRows
  have hnb : ¬ isBarrierRow r = true := by
    rw [isBarrierRow_deep r hr84]; omega
  have htop : (0 : ℚ) ≤ (r : ℚ) * (size : ℚ) := by
    have h1 : (0 : ℚ) ≤ r := by exact_mod_cast (by omega : (0 : Int) ≤ r)
    have h2 : (0 : ℚ) ≤ size := by exact_mod_cast hsize.le
    positivity
  have hs1 : Reachable size (ensureRowsInView size ((r : ℚ) * (size : ℚ)) 0 s) :=
    Reachable.step hs (Step.scroll s _ 0 htop (le_refl _))
  obtain ⟨hst1, hm1⟩ := stats_of_core (ensureRowsInView_core size ((r : ℚ) * (size : ℚ)) 0 s)
  have hk1 := ensureRowsInView_keeps size ((r : ℚ) * (size : ℚ)) 0 s
  obtain ⟨hb, hel⟩ := ensureRows_fold_fresh size (viewRows size ((r : ℚ) * (size : ℚ)) 0) s [] r
    (mem_viewRows_self size r hsize (by omega)) hfresh 0 (by norm_num)
  have hmem := chooseMaterialWith_mem r s.rareChanceBonus (rngSeeded r (0 : Nat))
  obtain ⟨hid, hbase⟩ := materials_facts _ hmem
  have hgb : genBlock r 0 s.rareChanceBonus =
      { type := (chooseMaterialWith r s.rareChanceBonus (rngSeeded r (0 : Nat))).id, row := r,
        col := (0 : Nat),
        hp := generateHP (chooseMaterialWith r s.rareChanceBonus (rngSeeded r (0 : Nat))) r,
        mat := some (chooseMaterialWith r s.rareChanceBonus (rngSeeded r (0 : Nat))) } := by
    simp [genBlock, hnb]
  have hge : genEl size r 0 s.rareChanceBonus =
      materialEl size r 0 (chooseMaterialWith r s.rareChanceBonus (rngSeeded r (0 : Nat))) := by
    simp [genEl, hnb]
  rw [hgb] at hb
  rw [hge] at hel
  obtain ⟨t, ht, hmoney, hstats, hrr, hbl, hels⟩ := mine_material size hsize _
    (ensureRowsInView size ((r : ℚ) * (size : ℚ)) 0 s) r 0 _ _ hs1 hb (le_refl _) rfl hid hel
  refine ⟨t, ht, ?_, hstats.trans hst1, ?_, ?_, ?_⟩
  · rw [hmoney, hm1]
    have h1 : (0 : ℚ) ≤ r := by exact_mod_cast (by omega : (0 : Int) ≤ r)
    have h2 : (0 : ℚ) ≤ (r : ℚ) / 120 := by positivity
    have h3 : (1 : ℚ) * 1 ≤
        (chooseMaterialWith r s.rareChanceBonus (rngSeeded r (0 : Nat))).base * (1 + (r : ℚ) / 120) :=
      mul_le_mul hbase (by linarith) (by norm_num) (by linarith)
    linarith
  · intro x hx
    rw [hrr]
    exact hk1.1 x hx
  · intro x hx c
    have hne : ¬ (x = r ∧ c = ((0 : Nat) : Int)) := fun h => hfresh (h.1 ▸ hx)
    rw [hbl x c hne]
    exact hk1.2.1 x hx c
  · intro el hel1 hty
    apply hels el (hk1.2.2 el hel1 hty)
    intro h
    rw [h] at hty
    exact hid hty

/-- Money can be earned without bound while the player fields stay. -/
theorem pump (size : Int) (hsize : 0 < size) (s : State) (hs : Reachable size s) (M : ℚ) :
    ∃ t : State, Reachable size t ∧ M ≤ t.money ∧ t.stats = s.stats ∧ Keeps s t := by
  have key : ∀ n : Nat, ∃ t : State, Reachable size t ∧ s.money + n ≤ t.money ∧
      t.stats = s.stats ∧ Keeps s t := by
    intro n
    induction n with
    | zero => exact ⟨s, hs, by simp, rfl, Keeps.refl s⟩
    | succ n ih =>
      obtain ⟨t, ht, hm, hst, hk⟩ := ih
      obtain ⟨u, hu, hm2, hst2, hk2⟩ := gain_one size hsize t ht
      refine ⟨u, hu, ?_, hst2.trans hst, hk.trans hk2⟩
      push_cast
      linarith
  obtain ⟨t, ht, hm, hst, hk⟩ := key ⌈M - s.money⌉.toNat
  refine ⟨t, ht, ?_, hst, hk⟩
  have h1 : M - s.money ≤ (⌈M - s.money⌉ : ℚ) := Int.le_ceil _
  have h2 : (⌈M - s.money⌉ : Int) ≤ (⌈M - s.money⌉.toNat : Int) := Int.self_le_toNat _
  have h3 : ((⌈M - s.money⌉ : Int) : ℚ) ≤ ((⌈M - s.money⌉.toNat : Int) : ℚ) := by
    exact_mod_cast h2
  have h4 : ((⌈M - s.money⌉.toNat : Int) : ℚ) = ((⌈M - s.money⌉.toNat : Nat) : ℚ) := by
    push_cast; rfl
  linarith
/-! ## Shopping with enough money -/

theorem Action.cost_toState (a : Action) (s : State) (m : ℚ) :
    a.cost (s.stats.toState m) = a.cost s := by
  cases a with
  | buy t => cases t <;> rfl
  | levelUp => rfl
  | advanced => rfl

theorem spend_ok (p : ℚ) (s : State) (h : p ≤ s.money) :
    spend p s = (true, { s with money := s.money - p }) := by
  simp [spend, not_lt.2 h]

/-- The player fields after a click in the shop depend on the player fields
before it only, when the player can pay; the world is not touched. -/
theorem Action.apply_stats (a : Action) (s : State) (m : ℚ) (hs : a.cost s ≤ s.money)
    (hm : a.cost s ≤ m) :
    (a.apply s).stats = (a.apply (s.stats.toState m)).stats ∧
    (a.apply s).blocks = s.blocks ∧ (a.apply s).els = s.els ∧
    (a.apply s).renderedRows = s.renderedRows := by
  have hm1 : a.cost (s.stats.toState m) ≤ (s.stats.toState m).money := by
    rw [Action.cost_toState]; exact hm
  cases a with
  | buy t =>
    have e1 := spend_ok _ s hs
    have e2 := spend_ok _ _ hm1
    simp only [Action.cost] at e1 e2
    have hmx : t.maxed (s.stats.toState m) = t.maxed s := by cases t <;> rfl
    simp only [Action.apply, clickBuy, hmx]
    by_cases hmax : t.maxed s = true
    · rw [if_pos hmax, if_pos hmax]
      exact ⟨rfl, rfl, rfl, rfl⟩
    · rw [if_neg hmax, if_neg hmax]
      cases t <;>
        simp only [Track.buy, e1, e2] <;>
        simp only [incProgress, renderUpgradeSegments, Stats.toState, State.stats,
          Bool.true_eq_false, if_false] <;>
        split_ifs <;> simp
  | levelUp =>
    have e1 := spend_ok _ s hs
    have e2 := spend_ok _ _ hm1
    simp only [Action.cost] at e1 e2
    have ha : allMaxed (s.stats.toState m) = allMaxed s := rfl
    simp only [Action.apply, clickLevelUp, ha, e1, e2]
    split_ifs <;> exact ⟨rfl, rfl, rfl, rfl⟩
  | advanced =>
    have e1 := spend_ok _ s hs
    have e2 := spend_ok _ _ hm1
    simp only [Action.cost] at e1 e2
    have ha : (s.stats.toState m).advancedDisabled = s.advancedDisabled := rfl
    simp only [Action.apply, clickAdvanced, ha, buyAdvanced, e1, e2]
    split_ifs <;> exact ⟨rfl, rfl, rfl, rfl⟩

theorem Action.step_reach (size : Int) (a : Action) (s : State) : Step size s (a.apply s) := by
  cases a with
  | buy t => exact Step.buy s t
  | levelUp => exact Step.levelUp s
  | advanced => exact Step.advanced s

/-- A click in the shop of `Stats.step` can be made in a session, after
earning the money for it. -/
theorem sim_step (size : Int) (hsize : 0 < size) (s : State) (hs : Reachable size s)
    (a : Action) (st : Stats) (h : s.stats.step a = some st) :
    ∃ t : State, Reachable size t ∧ t.stats = st ∧ Keeps s t := by
  unfold Stats.step at h
  split_ifs at h with hc
  simp only [Option.some.injEq] at h
  rw [Action.cost_toState] at hc
  obtain ⟨u, hu, hmoney, hst, hk⟩ := pump size hsize s hs (a.cost s)
  have hcu : a.cost u = a.cost s := by
    rw [← Action.cost_toState a u 0, ← Action.cost_toState a s 0, hst]
  obtain ⟨h1, h2, h3, h4⟩ := Action.apply_stats a u bigMoney (hcu ▸ hmoney) (hcu ▸ hc)
  refine ⟨a.apply u, Reachable.step hu (Action.step_reach size a u), ?_, hk.trans ?_⟩
  · rw [h1, hst, h]
  · refine ⟨fun r hr => h4 ▸ hr, fun r _ c => by rw [h2], fun el hel _ => h3 ▸ hel⟩

/-- A list of clicks in the shop of `Stats.run` can be made in a session. -/
theorem sim_run (size : Int) (hsize : 0 < size) (as : List Action) :
    ∀ (s : State), Reachable size s → ∀ st : Stats, Stats.run as s.stats = some st →
      ∃ t : State, Reachable size t ∧ t.stats = st ∧ Keeps s t := by
  induction as with
  | nil =>
    intro s hs st h
    simp only [Stats.run, Option.some.injEq] at h
    exact ⟨s, hs, h, Keeps.refl s⟩
  | cons a as ih =>
    intro s hs st h
    simp only [Stats.run] at h
    cases h1 : s.stats.step a with
    | none => rw [h1] at h; simp at h
    | some st1 =>
      rw [h1] at h
      obtain ⟨u, hu, hst, hk⟩ := sim_step size hsize s hs a st1 h1
      obtain ⟨t, ht, hst2, hk2⟩ := ih u hu st (by rw [hst]; exact h)
      exact ⟨t, ht, hst2, hk.trans hk2⟩
/-! ## Breaking barriers -/

theorem barrierEl_injective (size : Int) (hsize : 0 < size) (r r1 : Int) (c c1 : Nat)
    (h : barrierEl size r c = barrierEl size r1 c1) : r = r1 ∧ c = c1 := by
  have hrow : (barrierEl size r c).row = (barrierEl size r1 c1).row := by rw [h]
  have hleft : (barrierEl size r c).left = (barrierEl size r1 c1).left := by rw [h]
  simp only [barrierEl] at hrow hleft
  refine ⟨hrow, ?_⟩
  have h6 : (size + 6) ≠ 0 := by omega
  have : (c : Int) * (size + 6) = (c1 : Int) * (size + 6) := by omega
  exact_mod_cast mul_right_cancel₀ h6 this

/-- Swinging at a barrier whose gate is open until it breaks: the crit chance
gets the reward of `rewardBarrier`, the other player fields and the other
blocks stay. -/
theorem break_barrier (size : Int) (hsize : 0 < size) (n : Nat) :
    ∀ (s : State) (r : Int) (c : Nat) (data : Block),
      Reachable size s → isBarrierRow r = true → s.blocks r c = some data →
      data.hp.toNat ≤ n → barrierEl size r c ∈ s.els → gateOpen r s.stats →
      ∃ t : State, Reachable size t ∧
        t.stats = { s.stats with critChance := min (1 / 2) (s.critChance + 5 / 1000) } ∧
        t.renderedRows = s.renderedRows ∧
        (∀ r1 c1 : Int, ¬ (r1 = r ∧ c1 = c) → t.blocks r1 c1 = s.blocks r1 c1) ∧
        (∀ el ∈ s.els, el ≠ barrierEl size r c → el ∈ t.els) := by
  induction n with
  | zero =>
    intro s r c data hs hrow hlive hn hel hgate
    have hinv := Reachable_inv hs
    have hcol := elCol_barrierEl size r c hsize
    have hlive1 : s.blocks (barrierEl size r c).row (elCol size (barrierEl size r c))
        = some data := by rw [hcol]; exact hlive
    have hdealt : 5 ≤ (computeDamage s).1 :=
      le_trans (Int.le_floor.2 (by push_cast; exact hinv.2.1))
        (computeDamage_ge s (by linarith [hinv.2.1]) (by linarith [hinv.2.2.1]))
    have hbreak : data.hp - (computeDamage s).1 ≤ 0 := by omega
    have hstep := tryMineBlock_barrier_hit size _ s data rfl hlive1 hgate.1 hgate.2
    rw [if_pos hbreak, hcol] at hstep
    refine ⟨tryMineBlock size (barrierEl size r c) s, Reachable.step hs (Step.click s _ hel),
      ?_, ?_, ?_, ?_⟩ <;> rw [hstep]
    · rfl
    · rfl
    · intro r1 c1 hne
      exact blocksDelete_set_other _ _ _ _ _ _ hne
    · intro el hel1 hne
      exact (List.mem_erase_of_ne hne).2 hel1
  | succ n ih =>
    intro s r c data hs hrow hlive hn hel hgate
    have hinv := Reachable_inv hs
    have hcol := elCol_barrierEl size r c hsize
    have hlive1 : s.blocks (barrierEl size r c).row (elCol size (barrierEl size r c))
        = some data := by rw [hcol]; exact hlive
    have hdealt : 5 ≤ (computeDamage s).1 :=
      le_trans (Int.le_floor.2 (by push_cast; exact hinv.2.1))
        (computeDamage_ge s (by linarith [hinv.2.1]) (by linarith [hinv.2.2.1]))
    have hstep := tryMineBlock_barrier_hit size _ s data rfl hlive1 hgate.1 hgate.2
    have hreach : Reachable size (tryMineBlock size (barrierEl size r c) s) :=
      Reachable.step hs (Step.click s _ hel)
    by_cases hbreak : data.hp - (computeDamage s).1 ≤ 0
    · rw [if_pos hbreak, hcol] at hstep
      refine ⟨tryMineBlock size (barrierEl size r c) s, hreach, ?_, ?_, ?_, ?_⟩ <;> rw [hstep]
      · rfl
      · rfl
      · intro r1 c1 hne
        exact blocksDelete_set_other _ _ _ _ _ _ hne
      · intro el hel1 hne
        exact (List.mem_erase_of_ne hne).2 hel1
    · rw [if_neg hbreak, hcol] at hstep
      rw [hstep] at hreach
      obtain ⟨t, ht, hst, hrr, hbl, hels⟩ := ih _ r c
        { data with hp := data.hp - (computeDamage s).1 } hreach hrow
        (by simp [blocksSet, barrierEl]) (by simp only; omega) hel hgate
      refine ⟨t, ht, hst, hrr, ?_, hels⟩
      intro r1 c1 hne
      rw [hbl r1 c1 hne]
      exact blocksSet_other _ _ _ _ _ _ hne

/-- Breaking the barriers of a list of distinct cells, one after the other. -/
theorem break_barriers (size : Int) (hsize : 0 < size) (ks : List (Int × Nat)) :
    ks.Nodup → ∀ s : State, Reachable size s →
      (∀ k ∈ ks, isBarrierRow k.1 = true ∧ LiveBarrier size s k.1 k.2 ∧ gateOpen k.1 s.stats) →
      ∃ t : State, Reachable size t ∧
        t.stats = { s.stats with critChance := critAfter ks.length s.critChance } ∧
        (∀ (r : Int) (c : Nat), (r, c) ∉ ks → LiveBarrier size s r c → LiveBarrier size t r c) := by
  induction ks with
  | nil =>
    intro _ s hs _
    exact ⟨s, hs, rfl, fun _ _ _ h => h⟩
  | cons k ks ih =>
    intro hnd s hs hall
    obtain ⟨hk, hnd1⟩ := List.nodup_cons.1 hnd
    obtain ⟨hrow, ⟨hrr0, ⟨data, hlive⟩, hel⟩, hgate⟩ := hall k (List.mem_cons_self _ _)
    obtain ⟨u, hu, hst, hrr, hbl, hels⟩ := break_barrier size hsize _ s k.1 k.2 data hs hrow
      hlive (le_refl _) hel hgate
    have hkeep : ∀ (r : Int) (c : Nat), (r, c) ≠ k → LiveBarrier size s r c →
        LiveBarrier size u r c := by
      intro r c hne ⟨h1, ⟨d, h2⟩, h3⟩
      have hne1 : ¬ (r = k.1 ∧ (c : Int) = (k.2 : Int)) := by
        rintro ⟨e1, e2⟩
        apply hne
        have e3 : c = k.2 := by exact_mod_cast e2
        exact Prod.ext e1 e3
      refine ⟨hrr ▸ h1, ⟨d, (hbl r c hne1).trans h2⟩, hels _ h3 ?_⟩
      intro heq
      obtain ⟨e1, e2⟩ := barrierEl_injective size hsize _ _ _ _ heq
      exact hne (Prod.ext e1 e2)
    have hgateu : ∀ r : Int, gateOpen r s.stats → gateOpen r u.stats := by
      intro r hg
      rw [hst]; exact hg
    obtain ⟨t, ht, hst2, hlive2⟩ := ih hnd1 u hu (by
      intro k1 hk1
      obtain ⟨a1, a2, a3⟩ := hall k1 (List.mem_cons_of_mem _ hk1)
      exact ⟨a1, hkeep k1.1 k1.2 (fun h => hk (h ▸ hk1)) a2, hgateu _ a3⟩)
    refine ⟨t, ht, ?_, ?_⟩
    · rw [hst2, hst]
      have hcu : u.critChance = min (1 / 2) (s.critChance + 5 / 1000) := by
        have := congrArg Stats.critChance hst
        exact this
      rw [hcu]
      simp only [critAfter, List.length_cons, Function.iterate_succ_apply]
    · intro r c hnot hl
      have h1 : (r, c) ≠ k := fun h => hnot (h ▸ List.mem_cons_self _ _)
      have h2 : (r, c) ∉ ks := fun h => hnot (List.mem_cons_of_mem _ h)
      exact hlive2 r c h2 (hkeep r c h1 hl)
/-! ## A session that reaches a crit chance above one half -/

theorem scroll_fresh (size : Int) (top h : ℚ) (s : State) (r : Int) (c : Nat)
    (hr : rowLo size top ≤ r ∧ r ≤ rowBot size top h) (hfresh : r ∉ s.renderedRows)
    (hc : c < 12) :
    r ∈ (ensureRowsInView size top h s).renderedRows ∧
    (ensureRowsInView size top h s).blocks r c = some (genBlock r c s.rareChanceBonus) ∧
    genEl size r c s.rareChanceBonus ∈ (ensureRowsInView size top h s).els := by
  have hmem := (mem_viewRows size top h r).2 hr
  obtain ⟨_, _, _, _, _, _, h6⟩ := ensureRows_fold size (viewRows size top h) s []
  obtain ⟨hb, hel⟩ := ensureRows_fold_fresh size (viewRows size top h) s [] r hmem hfresh c hc
  exact ⟨h6 r hmem, hb, hel⟩

theorem scroll_liveBarrier (size : Int) (top h : ℚ) (s : State) (r : Int) (c : Nat)
    (hr : rowLo size top ≤ r ∧ r ≤ rowBot size top h) (hfresh : r ∉ s.renderedRows)
    (hc : c < 12) (hrow : isBarrierRow r = true) :
    LiveBarrier size (ensureRowsInView size top h s) r c := by
  obtain ⟨h1, h2, h3⟩ := scroll_fresh size top h s r c hr hfresh hc
  refine ⟨h1, ⟨_, h2⟩, ?_⟩
  simpa [genEl, hrow] using h3

theorem startState_reachable (size : Int) : Reachable size startState :=
  Reachable.init _ _

theorem window96 : rowLo 56 0 = 0 ∧ rowBot 56 0 4928 = 96 := by
  constructor <;> decide!

theorem shopPlan10_run : Stats.run (shopPlan 10) startState.stats = some statsLevel11 := by
  decide!

theorem barrierCells87_facts :
    barrierCells87.Nodup ∧ barrierCells87.length = 87 ∧ (96, 3) ∉ barrierCells87 ∧
    ∀ k ∈ barrierCells87, isBarrierRow k.1 = true ∧ (0 ≤ k.1 ∧ k.1 ≤ 96) ∧ k.2 < 12 ∧
      gateOpen k.1 statsLevel11 := by
  decide!

theorem critAfter87 : critAfter 87 (1 / 20) = 97 / 200 := by
  decide!
/-- The session: scroll down to row 96, buy up to level 11 and damage 165
(`shopPlan 10`), break 87 barriers, then buy the advanced upgrade (its card is
shown by then: `statsLevel11.advancedShown`). -/
theorem session_above_half :
    ∃ s : State, Reachable 56 s ∧ s.critChance = 101 / 200 ∧ s.pickaxeDamage = 173 ∧
      s.pickaxeLevel = 11 ∧ LiveBarrier 56 s 96 3 := by
  have hsize : (0 : Int) < 56 := by norm_num
  -- the rows 0..96
  have hs1 : Reachable 56 (ensureRowsInView 56 0 4928 startState) :=
    Reachable.step (startState_reachable 56) (Step.scroll _ 0 4928 (le_refl _) (by norm_num))
  have hst1 : (ensureRowsInView 56 0 4928 startState).stats = startState.stats :=
    (stats_of_core (ensureRowsInView_core 56 0 4928 startState)).1
  have hlive1 : ∀ (r : Int) (c : Nat), 0 ≤ r ∧ r ≤ 96 → c < 12 → isBarrierRow r = true →
      LiveBarrier 56 (ensureRowsInView 56 0 4928 startState) r c := by
    intro r c hr hc hrow
    apply scroll_liveBarrier 56 0 4928 startState r c _ _ hc hrow
    · rw [window96.1, window96.2]; exact hr
    · simp [startState, initState]
  -- the shop
  obtain ⟨s2, hs2, hst2, hk2⟩ := sim_run 56 hsize (shopPlan 10) _ hs1 statsLevel11
    (by rw [hst1]; exact shopPlan10_run)
  obtain ⟨hnd, hlen, hnot, hall⟩ := barrierCells87_facts
  -- the barriers
  obtain ⟨s3, hs3, hst3, hlive3⟩ := break_barriers 56 hsize barrierCells87 hnd s2 hs2 (by
    intro k hk
    obtain ⟨a1, a2, a3, a4⟩ := hall k hk
    exact ⟨a1, (hlive1 k.1 k.2 a2 a3 a1).keeps hk2, hst2 ▸ a4⟩)
  have hc2 : s2.critChance = 1 / 20 := by
    have := congrArg Stats.critChance hst2
    exact this
  rw [hlen, hc2, critAfter87, hst2] at hst3
  have hl3 : LiveBarrier 56 s3 96 3 :=
    hlive3 96 3 hnot ((hlive1 96 3 (by norm_num) (by norm_num) (by decide)).keeps hk2)
  -- the advanced upgrade
  obtain ⟨s4, hs4, hst4, hk4⟩ := sim_step 56 hsize s3 hs3 Action.advanced
    { statsLevel11 with
      critChance := 101 / 200, critMult := 9 / 4, pickaxeDamage := 173, pickaxeSpeed := 6,
      advancedUnlocked := true, advancedDisabled := true }
    (by rw [hst3]; decide!)
  refine ⟨s4, hs4, ?_, ?_, ?_, hl3.keeps hk4⟩
  · exact congrArg Stats.critChance hst4
  · exact congrArg Stats.pickaxeDamage hst4
  · exact congrArg Stats.pickaxeLevel hst4

/-- What `rewardBarrier` does: the money grows by `200 + 8 * row` whatever
`computeSell` is, and the crit chance becomes `min(0.5, old + 0.005)`. -/
theorem rewardBarrier_spec (row : Int) (s : State) :
    (rewardBarrier row s).money = s.money + (200 + 8 * (row : ℚ)) ∧
    (rewardBarrier row s).critChance = min (1 / 2) (s.critChance + 5 / 1000) ∧
    (s.critChance + 5 / 1000 ≤ 1 / 2 →
      (rewardBarrier row s).critChance = s.critChance + 5 / 1000) ∧
    (s.critChance ≤ 1 / 2 → s.critChance ≤ (rewardBarrier row s).critChance) := by
  refine ⟨?_, rfl, ?_, ?_⟩
  · simp only [rewardBarrier]; ring
  · intro h
    simp only [rewardBarrier]
    exact min_eq_right h
  · intro h
    simp only [rewardBarrier]
    exact le_min h (by linarith)

theorem shopPlan9_run : Stats.run (shopPlan 9) startState.stats = some statsLevel10 := by
  decide!

/-- A state of a session with the player fields of `oneHitState` in front of
the untouched barrier of row 20, column 0. -/
theorem session_level10 :
    ∃ s : State, Reachable 56 s ∧ s.stats = statsLevel10 ∧
      s.blocks 20 0 = some (genBlock 20 0 0) ∧ barrierEl 56 20 0 ∈ s.els := by
  have hsize : (0 : Int) < 56 := by norm_num
  have hs1 : Reachable 56 (ensureRowsInView 56 0 4928 startState) :=
    Reachable.step (startState_reachable 56) (Step.scroll _ 0 4928 (le_refl _) (by norm_num))
  have hst1 : (ensureRowsInView 56 0 4928 startState).stats = startState.stats :=
    (stats_of_core (ensureRowsInView_core 56 0 4928 startState)).1
  obtain ⟨h1, h2, h3⟩ := scroll_fresh 56 0 4928 startState 20 0
    (by rw [window96.1, window96.2]; norm_num) (by simp [startState, initState]) (by norm_num)
  obtain ⟨s2, hs2, hst2, hk2⟩ := sim_run 56 hsize (shopPlan 9) _ hs1 statsLevel10
    (by rw [hst1]; exact shopPlan9_run)
  refine ⟨s2, hs2, hst2, ?_, ?_⟩
  · have := hk2.2.1 20 h1 0
    rw [this]
    exact h2
  · apply hk2.2.2 _ _ rfl
    have e : genEl 56 20 0 startState.rareChanceBonus = barrierEl 56 20 0 := by
      simp only [genEl]
      rw [if_pos (by decide)]
    rw [← e]
    exact h3

/-! ## The damage purchase -/

theorem damagePlan_run : Stats.run damagePlan startState.stats = some statsAdvanced := by
  decide!

/-- A damage purchase that is paid: the count grows by one, the damage is the
floor of the closed form, the level stays and the price is deducted. -/
theorem buy_damage_paid (s : State) (hmax : Track.damage.maxed s = false)
    (hpay : Track.damage.price s ≤ s.money) :
    (clickBuy Track.damage s).upgradeCounts.damage = s.upgradeCounts.damage + 1 ∧
    (clickBuy Track.damage s).pickaxeDamage =
      ((⌊damageForm (s.upgradeCounts.damage + 1) s.pickaxeLevel⌋ : Int) : ℚ) ∧
    (clickBuy Track.damage s).pickaxeLevel = s.pickaxeLevel ∧
    (clickBuy Track.damage s).money = s.money - Track.damage.price s := by
  have e1 := spend_ok _ s hpay
  simp only [clickBuy, hmax, Bool.false_eq_true, if_false, Track.buy, e1]
  simp only [incProgress, renderUpgradeSegments, damageForm, Bool.true_eq_false, if_false]
  split_ifs <;> exact ⟨rfl, rfl, rfl, rfl⟩

/-- The closed form is an integer. -/
theorem floor_damageForm (count : Nat) (level : Int) :
    ((⌊damageForm count level⌋ : Int) : ℚ) = damageForm count level := by
  have e : damageForm count level = (((5 + (count : Int) * 2 + (level - 1) * 5 : Int)) : ℚ) := by
    unfold damageForm
    push_cast
    ring
  rw [e, Int.floor_intCast]
theorem tryMineBlock_advancedUnlocked (size : Int) (el : El) (s : State) :
    (tryMineBlock size el s).advancedUnlocked = s.advancedUnlocked := by
  unfold tryMineBlock
  simp only
  split
  · rfl
  · split_ifs <;> try simp [removeBlock, rewardBarrier, computeDamage, callRandom]
    split <;> simp [removeBlock, rewardBarrier, computeDamage, callRandom]

theorem DamageBound_of_core {s t : State} (h : t.core = s.core) (hs : DamageBound s) :
    DamageBound t := by
  have hst := (stats_of_core h).1
  have h1 : t.advancedUnlocked = s.advancedUnlocked := congrArg Stats.advancedUnlocked hst
  have h2 : t.pickaxeDamage = s.pickaxeDamage := congrArg Stats.pickaxeDamage hst
  have h3 : t.upgradeCounts = s.upgradeCounts := congrArg Stats.upgradeCounts hst
  have h4 : t.pickaxeLevel = s.pickaxeLevel := congrArg Stats.pickaxeLevel hst
  unfold DamageBound
  rw [h1, h2, h3, h4]
  exact hs

theorem DamageBound_tryMineBlock (size : Int) (el : El) (s : State) (hs : DamageBound s) :
    DamageBound (tryMineBlock size el s) := by
  obtain ⟨h1, h2, _, h4, _⟩ := tryMineBlock_fields size el s
  unfold DamageBound
  rw [tryMineBlock_advancedUnlocked, h1, h2, h4]
  exact hs

theorem DamageBound_clickBuy (t : Track) (s : State) (hs : DamageBound s) :
    DamageBound (clickBuy t s) := by
  unfold clickBuy
  split_ifs with hm
  · exact hs
  · unfold Track.buy spend
    split_ifs with hmoney
    · exact hs
    · unfold DamageBound at *
      cases t <;>
        simp only [incProgress, renderUpgradeSegments, Bool.true_eq_false, if_false] <;>
        split_ifs <;> intro hu <;> have hb := hs hu <;> simp only [damageForm] at hb ⊢
      all_goals first
        | exact hb
        | (have hf := floor_damageForm (s.upgradeCounts.damage + 1) s.pickaxeLevel
           simp only [damageForm] at hf
           rw [hf])

theorem DamageBound_clickLevelUp (s : State) (hs : DamageBound s) :
    DamageBound (clickLevelUp s) := by
  unfold clickLevelUp spend
  split_ifs
  · exact hs
  · exact hs
  · simp only [Bool.true_eq_false, if_false]
    intro hu
    have hb := hs hu
    simp only [damageForm] at hb ⊢
    push_cast
    linarith

theorem DamageBound_clickAdvanced (s : State) (hs : DamageBound s) :
    DamageBound (clickAdvanced s) := by
  unfold clickAdvanced buyAdvanced spend
  split_ifs
  · exact hs
  · exact hs
  · simp only [Bool.true_eq_false, if_false]
    intro hu
    simp at hu

theorem DamageBound_boosts (s : State) (hs : DamageBound s) :
    DamageBound (doubledropsUse s) ∧ DamageBound (adrenUse s) ∧ DamageBound (scannerUse s) := by
  refine ⟨?_, ?_, ?_⟩
  · unfold doubledropsUse spend
    split_ifs
    · exact hs
    · simp only [Bool.true_eq_false, if_false]; exact hs
  · unfold adrenUse spend
    split_ifs
    · exact hs
    · simp only [Bool.true_eq_false, if_false]; exact hs
  · unfold scannerUse spend
    split_ifs
    · exact hs
    · simp only [Bool.true_eq_false, if_false]; exact hs

theorem DamageBound_fireTimer (i : Nat) (s : State) (hs : DamageBound s) :
    DamageBound (fireTimer i s) := by
  unfold fireTimer
  split
  · exact hs
  · rename_i t _
    cases t <;> exact hs

theorem DamageBound_step {size : Int} {s t : State} (h : Step size s t) (hs : DamageBound s) :
    DamageBound t := by
  cases h with
  | scroll top h _ _ => exact DamageBound_of_core (ensureRowsInView_core size top h s) hs
  | click el _ => exact DamageBound_tryMineBlock size el s hs
  | buy u => exact DamageBound_clickBuy u s hs
  | levelUp => exact DamageBound_clickLevelUp s hs
  | advanced => exact DamageBound_clickAdvanced s hs
  | doubledrops => exact (DamageBound_boosts s hs).1
  | adren => exact (DamageBound_boosts s hs).2.1
  | scanner => exact (DamageBound_boosts s hs).2.2
  | timer i => exact DamageBound_fireTimer i s hs

/-- Until the advanced upgrade is bought, the damage of a session is at most
the closed form of the damage purchase. -/
theorem Reachable_damageBound {size : Int} {s : State} (h : Reachable size s) :
    DamageBound s := by
  induction h with
  | init rnd sell =>
    intro _
    simp [initState, damageForm]
  | step _ ht ih => exact DamageBound_step ht ih

/-- Before the advanced upgrade is bought, a paid damage purchase raises the
damage. -/
theorem buy_damage_raises {size : Int} (s : State) (hs : Reachable size s)
    (hadv : s.advancedUnlocked = false) (hmax : Track.damage.maxed s = false)
    (hpay : Track.damage.price s ≤ s.money) :
    s.pickaxeDamage < (clickBuy Track.damage s).pickaxeDamage := by
  have hb := Reachable_damageBound hs hadv
  rw [(buy_damage_paid s hmax hpay).2.1, floor_damageForm]
  simp only [damageForm] at hb ⊢
  push_cast
  linarith
/-- A state of a session with the player fields of `statsAdvanced` and the
money for the next damage purchase. -/
theorem session_advanced :
    ∃ s : State, Reachable 56 s ∧ s.stats = statsAdvanced ∧ Track.damage.price s ≤ s.money := by
  have hsize : (0 : Int) < 56 := by norm_num
  obtain ⟨s1, hs1, hst1, _⟩ := sim_run 56 hsize damagePlan startState (startState_reachable 56)
    statsAdvanced damagePlan_run
  obtain ⟨s2, hs2, hmoney, hst2, _⟩ := pump 56 hsize s1 hs1 (Track.damage.price s1)
  refine ⟨s2, hs2, hst2.trans hst1, ?_⟩
  have hp : Track.damage.price s2 = Track.damage.price s1 := by
    have h1 : s2.upgradeCounts = s1.upgradeCounts := congrArg Stats.upgradeCounts hst2
    simp only [Track.price, h1]
  rw [hp]
  exact hmoney

/-! ## Claims -/

/-- C1: cell generation depends on (row, column, rareChanceBonus) only.  For
every row, every column below 12 and two states that agree on
`rareChanceBonus` (and are otherwise arbitrary, `Math.random` included),
`renderRow` registers the same block (type, hit points, material) at
(row, column) in both, and leaves `Math.random` as it was installed. -/
theorem renderRow_deterministic (size r : Int) (c : Nat) (s1 s2 : State) (hc : c < 12)
    (hb : s1.rareChanceBonus = s2.rareChanceBonus) :
    (renderRow size r s1).blocks r c = (renderRow size r s2).blocks r c ∧
    (∃ b : Block, (renderRow size r s1).blocks r c = some b) ∧
    (renderRow size r s1).random = s1.random ∧
    (renderRow size r s2).random = s2.random := by
  refine ⟨?_, ⟨_, renderRow_blocks_same size r c s1 hc⟩, (renderRow_frame size r s1).1,
    (renderRow_frame size r s2).1⟩
  rw [renderRow_blocks_same size r c s1 hc, renderRow_blocks_same size r c s2 hc, hb]

/-- C3: window sync is idempotent and renders a row at most once.  After one
call of `ensureRowsInView` every row of the window is in `renderedRows`; a
second call with the same viewport calls `renderRow` for no row and returns
the same state; the rows for which the first call invoked `renderRow` were
not in `renderedRows`, none is rendered twice, and the blocks of the rows that
were already rendered are left as they were. -/
theorem ensureRowsInView_idempotent (size : Int) (top h : ℚ) (s : State) :
    (∀ r : Int, rowLo size top ≤ r → r ≤ rowBot size top h →
      r ∈ (ensureRowsInView size top h s).renderedRows) ∧
    ensureRowsInViewLog size top h (ensureRowsInView size top h s) =
      (ensureRowsInView size top h s, []) ∧
    (∀ r ∈ (ensureRowsInViewLog size top h s).2, r ∉ s.renderedRows) ∧
    (ensureRowsInViewLog size top h s).2.Nodup ∧
    (∀ r ∈ s.renderedRows, ∀ c : Int,
      (ensureRowsInView size top h s).blocks r c = s.blocks r c) := by
  obtain ⟨new, h1, h2, h3, h4, h5, h6⟩ := ensureRows_fold size (viewRows size top h) s []
  have hall : ∀ r : Int, rowLo size top ≤ r → r ≤ rowBot size top h →
      r ∈ (ensureRowsInView size top h s).renderedRows := fun r ha hb =>
    h6 r ((mem_viewRows size top h r).2 ⟨ha, hb⟩)
  have hlog : (ensureRowsInViewLog size top h s).2 = new := by
    simpa [ensureRowsInViewLog] using h1
  refine ⟨hall, ?_, ?_, ?_, ?_⟩
  · exact ensureRows_fold_done size _ _ [] fun r hr =>
      hall r ((mem_viewRows size top h r).1 hr).1 ((mem_viewRows size top h r).1 hr).2
  · intro r hr
    rw [hlog] at hr
    exact (h3 r hr).2
  · rw [hlog]; exact h2
  · intro r hr c
    exact h5 r c fun hx => (h3 r hx).2 hr


/-- C2: barrier gating in `tryMineBlock`.  For a live barrier block made by
`renderRow` and a player state in which a critical hit multiplies by at least
one, a swing reduces the hit points of the block (it is removed, or its hit
points are smaller than before) if and only if `pickaxeDamage >= reqDamage` and
`pickaxeLevel >= reqLevel`.  When the gate is not met, any number of swings
leaves the whole state unchanged, whatever `Math.random` returns. -/
theorem tryMineBlock_barrier_gate (size r : Int) (c : Nat) (s : State) (data : Block)
    (hsize : 0 < size) (hrow : isBarrierRow r = true) (hlive : s.blocks r c = some data)
    (hcm : 1 ≤ s.critMult) :
    ((match (tryMineBlock size (barrierEl size r c) s).blocks r c with
        | none => True
        | some b => b.hp < data.hp) ↔
      (((barrierRequirement r).1 : ℚ) ≤ s.pickaxeDamage ∧
        (barrierRequirement r).2 ≤ s.pickaxeLevel)) ∧
    (¬ (((barrierRequirement r).1 : ℚ) ≤ s.pickaxeDamage ∧
        (barrierRequirement r).2 ≤ s.pickaxeLevel) →
      ∀ n : Nat, (tryMineBlock size (barrierEl size r c))^[n] s = s) := by
  have hcol := elCol_barrierEl size r c hsize
  have hty : (barrierEl size r c).type = "barrier" := rfl
  have hrq : 20 ≤ (barrierRequirement r).1 :=
    barrierRequirement_pos r (by have := isBarrierRow_ge r hrow; omega)
  have hrej : ¬ (((barrierRequirement r).1 : ℚ) ≤ s.pickaxeDamage ∧
        (barrierRequirement r).2 ≤ s.pickaxeLevel) →
      tryMineBlock size (barrierEl size r c) s = s := by
    intro hg
    apply tryMineBlock_barrier_rejected size _ s hty
    by_contra hcon
    apply hg
    constructor
    · by_contra h1
      exact hcon (Or.inl (not_le.1 h1))
    · by_contra h1
      exact hcon (Or.inr (not_le.1 h1))
  constructor
  · constructor
    · intro hred
      by_contra hg
      rw [hrej hg, hlive] at hred
      exact lt_irrefl _ hred
    · rintro ⟨hd, hl⟩
      have hlive1 : s.blocks (barrierEl size r c).row (elCol size (barrierEl size r c)) = some data := by
        rw [hcol]; exact hlive
      rw [tryMineBlock_barrier_hit size _ s data hty hlive1 hd hl, hcol]
      have hd0 : (0 : ℚ) ≤ s.pickaxeDamage := by
        have : (20 : ℚ) ≤ ((barrierRequirement r).1 : ℚ) := by exact_mod_cast hrq
        linarith
      have hdealt : 20 ≤ (computeDamage s).1 := by
        refine le_trans ?_ (computeDamage_ge s hd0 hcm)
        apply Int.le_floor.2
        have : (20 : ℚ) ≤ ((barrierRequirement r).1 : ℚ) := by exact_mod_cast hrq
        push_cast
        linarith
      split_ifs with hbr
      · simp [removeBlock, blocksDelete, barrierEl]
      · simp only [blocksSet, barrierEl, and_self, if_true]
        omega
  · intro hg n
    exact Function.iterate_fixed (hrej hg) n

/-- C4: cap enforcement.  Once `upgradeCounts[id]` equals the cap
`5 * pickaxeLevel`, a click on the track's buy button changes nothing, for
every amount of money (money, counts, derived stats and
`totalUpgradePurchases` are as before); and in every state of a session
`upgradeCounts[id] <= 5 * pickaxeLevel`. -/
theorem upgrade_cap_enforced :
    (∀ (t : Track) (s : State), (t.count s : Int) = upgradeCapPerType s → clickBuy t s = s) ∧
    (∀ (size : Int) (s : State), Reachable size s →
      ∀ t : Track, (t.count s : Int) ≤ upgradeCapPerType s) := by
  constructor
  · intro t s h
    unfold clickBuy Track.maxed
    simp [h]
  · intro size s h t
    exact (Reachable_inv h).2.2.2 t

/-- C5 (as the code behaves): `tryMineBlock` does not use `computeSell`.  With
the Double Sell boost bought and not yet expired (`computeSell` is the doubling
wrapper and its timer is pending), breaking a material block whose unboosted
reward `base * (1 + row/120)` is `v` adds exactly `v` to the money, which is
not `2 * v`. -/
theorem doubleSell_not_applied (size r : Int) (c : Nat) (s0 : State) (data : Block)
    (mat : Material) (hsize : 0 < size) (hpay : 2500 ≤ s0.money)
    (hlive : s0.blocks r c = some data) (hmat : data.mat = some mat)
    (hty : mat.id ≠ "barrier") (hbase : 0 < mat.base) (hr : 0 ≤ r)
    (hbreak : data.hp - (computeDamage (doubledropsUse s0)).1 ≤ 0) :
    (doubledropsUse s0).computeSell = (fun base row => s0.computeSell base row * 2) ∧
    (doubledropsUse s0).timers = s0.timers ++ [Timer.sellEnd s0.computeSell] ∧
    (tryMineBlock size (materialEl size r c mat) (doubledropsUse s0)).money =
      (doubledropsUse s0).money + mat.base * (1 + (r : ℚ) / 120) ∧
    (tryMineBlock size (materialEl size r c mat) (doubledropsUse s0)).money ≠
      (doubledropsUse s0).money + 2 * (mat.base * (1 + (r : ℚ) / 120)) := by
  have hnot : ¬ s0.money < 2500 := not_lt.2 hpay
  have huse : doubledropsUse s0 =
      { s0 with
        money := s0.money - 2500
        computeSell := fun base row => s0.computeSell base row * 2
        timers := s0.timers ++ [Timer.sellEnd s0.computeSell] } := by
    simp [doubledropsUse, spend, hnot]
  have hcol := elCol_materialEl size r c mat hsize
  have hlive1 : (doubledropsUse s0).blocks (materialEl size r c mat).row
      (elCol size (materialEl size r c mat)) = some data := by
    rw [hcol, huse]; exact hlive
  have hm := tryMineBlock_material_break size (materialEl size r c mat) (doubledropsUse s0)
    data mat hty hlive1 hmat hbreak
  have hmoney : (tryMineBlock size (materialEl size r c mat) (doubledropsUse s0)).money =
      (doubledropsUse s0).money + mat.base * (1 + (r : ℚ) / 120) := by
    rw [hm]; rfl
  refine ⟨by rw [huse], by rw [huse], hmoney, ?_⟩
  rw [hmoney]
  have hv : 0 < mat.base * (1 + (r : ℚ) / 120) := by
    have : (0 : ℚ) ≤ r := by exact_mod_cast hr
    positivity
  intro h
  linarith

/-- C8 (amended): `rngSeeded(row, col)` lies in the closed interval [0,1], and
it is below 1 exactly when the 32-bit hash is not 4294967295. -/
theorem rngSeeded_range (r c : Int) :
    0 ≤ rngSeeded r c ∧ rngSeeded r c ≤ 1 ∧
      (rngSeeded r c < 1 ↔ rngHash r c ≠ 4294967295) := by
  unfold rngSeeded
  have hle : (rngHash r c : ℚ) ≤ 4294967295 := by exact_mod_cast rngHash_le r c
  refine ⟨by positivity, by rw [div_le_one (by norm_num)]; exact hle, ?_⟩
  rw [div_lt_one (by norm_num)]
  constructor
  · intro h heq
    rw [heq] at h
    norm_num at h
  · intro h
    have : rngHash r c < 4294967295 := lt_of_le_of_ne (rngHash_le r c) h
    exact_mod_cast this

/-- C8 (counterexample): at row 13240069, column 9 the hash is 4294967295 and
`rngSeeded` returns exactly 1, which is not in [0,1). -/
theorem rngSeeded_eq_one : (0 : Int) ≤ 13240069 ∧ (9 : Int) < 12 ∧ rngSeeded 13240069 9 = 1 := by
  refine ⟨by norm_num, by norm_num, ?_⟩
  have h : rngHash 13240069 9 = 4294967295 := by decide!
  unfold rngSeeded
  rw [h]
  norm_num

/-- C6 (as the code behaves): the barrier rows below 100 are 20, 40, 60, 80,
84, 88, 92 and 96, so after the gap of 20 between rows 60 and 80 the gap
between consecutive barrier rows is 4. -/
theorem barrier_rows_below_100 :
    (List.range 100).filter (fun (r : Nat) => isBarrierRow (r : Int)) =
      [20, 40, 60, 80, 84, 88, 92, 96] := by
  decide!

/-- C10 (as the code behaves): `rareChanceBonus` does not change the choice.
For every row, every bonus `b >= 0` and every sample, the share
`weight / total` of each material is the one under bonus 0, and
`chooseMaterial` picks the material it picks under bonus 0. -/
theorem chooseMaterial_bonus_irrelevant (row : Int) (b rnd : ℚ) (hb : 0 ≤ b) :
    (weights row b).map (fun w => w / totalWeight row b) =
      (weights row 0).map (fun w => w / totalWeight row 0) ∧
    chooseMaterialWith row b rnd = chooseMaterialWith row 0 rnd := by
  have hk : 0 < 1 + b := by linarith
  constructor
  · rw [weights_scale row b, totalWeight_scale row b, List.map_map]
    apply List.map_congr_left
    intro w _
    simp only [Function.comp]
    rw [mul_div_mul_right _ _ hk.ne']
  · unfold chooseMaterialWith
    rw [weights_scale row b, totalWeight_scale row b, ← mul_assoc,
      pickLoop_scale materials (weights row 0) (rnd * totalWeight row 0) (1 + b) hk]

/-- C9 (as the code behaves): a barrier reward can lower the crit chance.
There is a state of a session (after 87 broken barriers and the advanced
purchase) with crit chance 0.505, pickaxe damage 173 and level 11, in which the
barrier of row 96, column 3 is on the page with its gate open, and in which
`rewardBarrier` sets the crit chance to 0.5, below its value before. -/
theorem rewardBarrier_lowers_crit :
    ∃ s : State, Reachable 56 s ∧ s.critChance = 101 / 200 ∧
      LiveBarrier 56 s 96 3 ∧ gateOpen 96 s.stats ∧
      (rewardBarrier 96 s).critChance = 1 / 2 ∧
      (rewardBarrier 96 s).critChance < s.critChance := by
  obtain ⟨s, hs, hc, hd, hl, hlive⟩ := session_above_half
  have hcr : (rewardBarrier 96 s).critChance = 1 / 2 := by
    simp only [rewardBarrier, hc]
    norm_num
  refine ⟨s, hs, hc, hlive, ?_, hcr, ?_⟩
  · unfold gateOpen
    show ((barrierRequirement 96).1 : ℚ) ≤ s.pickaxeDamage ∧ (barrierRequirement 96).2 ≤ s.pickaxeLevel
    rw [hd, hl]
    decide!
  · rw [hcr, hc]; norm_num

/-- C7 (counterexample): a barrier broken by the first hit.  In `oneHitState`
(level 10, damage 150: the player fields after `shopPlan 9`) the requirement
of row 20 (damage 50, level 1) is met, the fresh barrier at column 0 has
`3 * 50 = 150` hit points, and one swing removes it and pays `200 + 8 * 20`;
a state of a session with these player fields and this barrier exists, and
there too the first swing breaks it. -/
theorem barrier_broken_by_first_hit :
    (isBarrierRow 20 = true ∧ gateOpen 20 oneHitState.stats ∧
      oneHitState.blocks 20 0 =
        some { type := "barrier", row := 20, col := 0, hp := 3 * (barrierRequirement 20).1,
               mat := none } ∧
      (tryMineBlock 56 (barrierEl 56 20 0) oneHitState).blocks 20 0 = none ∧
      (tryMineBlock 56 (barrierEl 56 20 0) oneHitState).money = oneHitState.money + 360) ∧
    ∃ s : State, Reachable 56 s ∧ s.stats = oneHitState.stats ∧
      s.blocks 20 0 = oneHitState.blocks 20 0 ∧ barrierEl 56 20 0 ∈ s.els ∧
      (tryMineBlock 56 (barrierEl 56 20 0) s).blocks 20 0 = none ∧
      (tryMineBlock 56 (barrierEl 56 20 0) s).money = s.money + 360 := by
  have hsize : (0 : Int) < 56 := by norm_num
  refine ⟨by decide!, ?_⟩
  obtain ⟨s, hs, hst, hb, hel⟩ := session_level10
  have hb1 : genBlock 20 0 0 =
      { type := "barrier", row := 20, col := 0, hp := 150, mat := none } := by decide!
  have hcol := elCol_barrierEl 56 20 0 hsize
  have hlive1 : s.blocks (barrierEl 56 20 0).row (elCol 56 (barrierEl 56 20 0)) =
      some { type := "barrier", row := 20, col := 0, hp := 150, mat := none } := by
    rw [hcol, ← hb1]; exact hb
  have hd : s.pickaxeDamage = 150 := congrArg Stats.pickaxeDamage hst
  have hl : s.pickaxeLevel = 10 := congrArg Stats.pickaxeLevel hst
  have hcm : s.critMult = 2 := congrArg Stats.critMult hst
  have hdealt : 150 ≤ (computeDamage s).1 := by
    refine le_trans ?_ (computeDamage_ge s (by rw [hd]; norm_num) (by rw [hcm]; norm_num))
    rw [hd]
    exact Int.le_floor.2 (by norm_num)
  have hstep := tryMineBlock_barrier_hit 56 (barrierEl 56 20 0) s _ rfl hlive1
    (by rw [hd]; decide!) (by rw [hl]; decide!)
  rw [if_pos (by simp only; omega), hcol] at hstep
  refine ⟨s, hs, hst, ?_, hel, ?_, ?_⟩
  · rw [hb, hb1]; decide!
  · rw [hstep]
    simp [removeBlock, blocksDelete, barrierEl]
  · rw [hstep]
    simp only [removeBlock, rewardBarrier, computeDamage_frame, barrierEl]
    norm_num

/-- C7 (amended): the first hit on a fresh barrier.  For a barrier row `r`, a
fresh barrier (hit points `3 * reqDamage(r)`) and a player who meets the
requirement: when the damage of the swing is below `3 * reqDamage(r)` the
barrier stays with positive hit points and neither money nor crit chance
change; when it is at least `3 * reqDamage(r)` the first hit removes the
barrier and pays `200 + 8 * r`. -/
theorem barrier_first_hit (size r : Int) (c : Nat) (s : State) (hsize : 0 < size)
    (hlive : s.blocks r c =
      some { type := "barrier", row := r, col := c, hp := (barrierRequirement r).1 * 3,
             mat := none })
    (hgate : gateOpen r s.stats) :
    ((computeDamage s).1 < 3 * (barrierRequirement r).1 →
      (∃ b : Block, (tryMineBlock size (barrierEl size r c) s).blocks r c = some b ∧
        b.hp = 3 * (barrierRequirement r).1 - (computeDamage s).1 ∧ 0 < b.hp) ∧
      (tryMineBlock size (barrierEl size r c) s).money = s.money ∧
      (tryMineBlock size (barrierEl size r c) s).critChance = s.critChance) ∧
    (3 * (barrierRequirement r).1 ≤ (computeDamage s).1 →
      (tryMineBlock size (barrierEl size r c) s).blocks r c = none ∧
      (tryMineBlock size (barrierEl size r c) s).money = s.money + (200 + 8 * (r : ℚ))) := by
  have hcol := elCol_barrierEl size r c hsize
  have hlive1 : s.blocks (barrierEl size r c).row (elCol size (barrierEl size r c)) =
      some { type := "barrier", row := r, col := c, hp := (barrierRequirement r).1 * 3,
             mat := none } := by
    rw [hcol]; exact hlive
  have hstep := tryMineBlock_barrier_hit size (barrierEl size r c) s _ rfl hlive1 hgate.1 hgate.2
  rw [hcol] at hstep
  constructor
  · intro hlt
    rw [if_neg (by simp only; omega)] at hstep
    rw [hstep]
    refine ⟨⟨{ type := "barrier", row := r, col := c,
               hp := (barrierRequirement r).1 * 3 - (computeDamage s).1, mat := none },
      ?_, ?_, ?_⟩, rfl, rfl⟩
    · simp [blocksSet, barrierEl]
    · show (barrierRequirement r).1 * 3 - (computeDamage s).1 =
        3 * (barrierRequirement r).1 - (computeDamage s).1
      ring
    · show 0 < (barrierRequirement r).1 * 3 - (computeDamage s).1
      omega
  · intro hge
    rw [if_pos (by simp only; omega)] at hstep
    rw [hstep]
    constructor
    · simp [removeBlock, blocksDelete, barrierEl]
    · simp only [removeBlock, rewardBarrier, computeDamage_frame, barrierEl]
      ring

/-- C11 (as the code behaves): a damage purchase can lower the damage.  There
is a state of a session (level 5, 24 damage purchases, the advanced upgrade
bought: damage `floor(73 * 1.05) = 76`) in which the damage purchase is paid,
increments `upgradeCounts.damage` to 25 and sets `pickaxeDamage` to
`floor(5 + 2 * 25 + 5 * 4) = 75`, below the 76 before the purchase. -/
theorem damage_purchase_lowers_damage :
    ∃ s : State, Reachable 56 s ∧ s.pickaxeLevel = 5 ∧ s.upgradeCounts.damage = 24 ∧
      s.pickaxeDamage = 76 ∧
      (clickBuy Track.damage s).money = s.money - Track.damage.price s ∧
      (clickBuy Track.damage s).upgradeCounts.damage = s.upgradeCounts.damage + 1 ∧
      (clickBuy Track.damage s).pickaxeDamage =
        ((⌊damageForm (clickBuy Track.damage s).upgradeCounts.damage
            (clickBuy Track.damage s).pickaxeLevel⌋ : Int) : ℚ) ∧
      (clickBuy Track.damage s).pickaxeDamage = 75 ∧
      (clickBuy Track.damage s).pickaxeDamage < s.pickaxeDamage := by
  obtain ⟨s, hs, hst, hpay⟩ := session_advanced
  have hl : s.pickaxeLevel = 5 := congrArg Stats.pickaxeLevel hst
  have hu : s.upgradeCounts = { damage := 24, speed := 20, radar := 20 } :=
    congrArg Stats.upgradeCounts hst
  have hc : s.upgradeCounts.damage = 24 := by rw [hu]
  have hd : s.pickaxeDamage = 76 := congrArg Stats.pickaxeDamage hst
  have hmax : Track.damage.maxed s = false := by
    simp only [Track.maxed, Track.count, upgradeCapPerType, hl, hc]
    decide
  obtain ⟨h1, h2, h3, h4⟩ := buy_damage_paid s hmax hpay
  have h75 : (clickBuy Track.damage s).pickaxeDamage = 75 := by
    rw [h2, hc, hl]
    decide!
  refine ⟨s, hs, hl, hc, hd, h4, h1, ?_, h75, ?_⟩
  · rw [h2, h1, h3]
  · rw [h75, hd]
    norm_num
/-- Witness of C1: row 5, column 3 in `startState` and in `richState`. -/
theorem renderRow_deterministic_witness :
    startState.rareChanceBonus = richState.rareChanceBonus ∧
    startState.money ≠ richState.money ∧
    ((renderRow 56 5 startState).blocks 5 (3 : Nat) =
        (renderRow 56 5 richState).blocks 5 (3 : Nat) ∧
      (∃ b : Block, (renderRow 56 5 startState).blocks 5 (3 : Nat) = some b) ∧
      (renderRow 56 5 startState).random = startState.random ∧
      (renderRow 56 5 richState).random = richState.random) :=
  ⟨by decide!, by decide!, renderRow_deterministic 56 5 3 startState richState (by decide) (by decide!)⟩

/-- Witness of C2: the barrier of row 20, column 0 in `oneHitState`, whose
gate is open. -/
theorem tryMineBlock_barrier_gate_witness :
    ((match (tryMineBlock 56 (barrierEl 56 20 0) oneHitState).blocks 20 (0 : Nat) with
        | none => True
        | some b => b.hp < (genBlock 20 0 0).hp) ↔
      (((barrierRequirement 20).1 : ℚ) ≤ oneHitState.pickaxeDamage ∧
        (barrierRequirement 20).2 ≤ oneHitState.pickaxeLevel)) ∧
    (¬ (((barrierRequirement 20).1 : ℚ) ≤ oneHitState.pickaxeDamage ∧
        (barrierRequirement 20).2 ≤ oneHitState.pickaxeLevel) →
      ∀ n : Nat, (tryMineBlock 56 (barrierEl 56 20 0))^[n] oneHitState = oneHitState) :=
  tryMineBlock_barrier_gate 56 20 0 oneHitState (genBlock 20 0 0) (by decide) (by decide)
    (by decide!) (by decide!)

/-- Witness of C4: `cappedState` has five damage purchases at level 1. -/
theorem upgrade_cap_enforced_witness :
    (Track.damage.count cappedState : Int) = upgradeCapPerType cappedState ∧
    clickBuy Track.damage cappedState = cappedState ∧
    (Track.damage.count startState : Int) ≤ upgradeCapPerType startState :=
  ⟨by decide!, upgrade_cap_enforced.1 Track.damage cappedState (by decide!),
    upgrade_cap_enforced.2 56 startState (startState_reachable 56) Track.damage⟩

/-- Witness of C5: in `boostState` the boost is bought and the stone block of
row 0, column 1 (worth 1) is broken: the money grows by 1, not by 2. -/
theorem doubleSell_not_applied_witness :
    (doubledropsUse boostState).money = 0 ∧
    (tryMineBlock 56 (materialEl 56 0 1 stone) (doubledropsUse boostState)).money =
      (doubledropsUse boostState).money + stone.base * (1 + ((0 : Int) : ℚ) / 120) ∧
    (tryMineBlock 56 (materialEl 56 0 1 stone) (doubledropsUse boostState)).money ≠
      (doubledropsUse boostState).money + 2 * (stone.base * (1 + ((0 : Int) : ℚ) / 120)) :=
  ⟨by decide!,
    (doubleSell_not_applied 56 0 1 boostState
      { type := "stone", row := 0, col := 1, hp := 1, mat := some stone } stone
      (by decide) (by decide!) (by decide!) rfl (by decide) (by decide!) (by decide)
      (by decide!)).2.2⟩

/-- Witness of C7 (amended): in `multiHitState` (damage 60) the first hit
leaves the barrier of row 20, column 0 standing. -/
theorem barrier_first_hit_witness :
    gateOpen 20 multiHitState.stats ∧
    (computeDamage multiHitState).1 < 3 * (barrierRequirement 20).1 ∧
    (∃ b : Block, (tryMineBlock 56 (barrierEl 56 20 0) multiHitState).blocks 20 (0 : Nat) = some b ∧
        b.hp = 3 * (barrierRequirement 20).1 - (computeDamage multiHitState).1 ∧ 0 < b.hp) :=
  ⟨by decide!, by decide!,
    ((barrier_first_hit 56 20 0 multiHitState (by decide) (by decide!) (by decide!)).1
      (by decide!)).1⟩

/-- Witness of C10: row 0, bonus 0.03 (one Ore Radar purchase), sample 1/2. -/
theorem chooseMaterial_bonus_irrelevant_witness :
    (0 : ℚ) ≤ 3 / 100 ∧
    ((weights 0 (3 / 100)).map (fun w => w / totalWeight 0 (3 / 100)) =
        (weights 0 0).map (fun w => w / totalWeight 0 0) ∧
      chooseMaterialWith 0 (3 / 100) (1 / 2) = chooseMaterialWith 0 0 (1 / 2)) :=
  ⟨by norm_num, chooseMaterial_bonus_irrelevant 0 (3 / 100) (1 / 2) (by norm_num)⟩

end ClickNMiner
